import Mathlib

/-!
# Console input bridge (`src/utils/conin.c`)

A shallow embedding of the translation core of `conin.c`:

* the output relay `forward_output`, which tracks the child's trailing
  unterminated output in the globals `prompt` / `prompt_len`;
* the readline completion callback `rl_callback`, which turns a finished line
  into console key-event records;
* the direct-mode (raw) branch of the event loop in `main`, a three-state
  escape-sequence decoder followed by the emission of one key-down/key-up pair;
* the console-mode test that selects between the two input paths.

Conventions.  A `char` is modelled by its byte value as a natural number.  A C
array is a list.  A C string value is the list of its characters, the
terminating NUL excluded.  Calls into the operating system and into readline
that have an effect are recorded, in program order, as a list of `Effect`s.
Undefined behaviour (signed overflow, an out-of-bounds store) is the result
`none`.
-/

namespace Conin

set_option maxRecDepth 1000000

/-! ## Output relay -/

/-- The globals of the output relay: `static char prompt[256]` and
`static int prompt_len`. -/
structure PromptState where
  prompt : List Nat
  prompt_len : Int
deriving DecidableEq, Repr

/-- Static storage is zero-initialised: 256 NUL bytes and length 0. -/
def PromptState.init : PromptState := ⟨List.replicate 256 0, 0⟩

/-- Largest value of the C type `int`. -/
def INT_MAX : Int := 2147483647

/-- Conversion of an `int` to `size_t`, as done by the usual arithmetic
conversions in `prompt_len < sizeof buf`. -/
def size_t (x : Int) : Nat := (x % 4294967296).toNat

/-- The call `memcpy(dst + off, src, n)`; `none` when the copy would leave
either array. -/
def memcpy (dst : List Nat) (off : Int) (src : List Nat) (n : Nat) : Option (List Nat) :=
  if 0 ≤ off ∧ off.toNat + n ≤ dst.length ∧ n ≤ src.length then
    some (dst.take off.toNat ++ src.take n ++ dst.drop (off.toNat + n))
  else none

/-- The assignment `a[i] = v`; `none` when `i` is outside the array. -/
def store (a : List Nat) (i : Int) (v : Nat) : Option (List Nat) :=
  if 0 ≤ i ∧ i.toNat < a.length then some (a.set i.toNat v) else none

/-- The loop `for (int i = buf_len; i; i--) if (buf[i-1] == '\n') ...` of
`forward_output`, started at `i`: the value of `i` at which the loop body
returns, or `none` when the loop runs to `i = 0`. -/
def scan_lf (buf : List Nat) : Nat → Option Nat
  | 0 => none
  | i + 1 => if buf.getD i 0 = 0x0A then some (i + 1) else scan_lf buf i

/-- The function `forward_output` seen from the prompt tracker: `buf` is the
chunk delivered by `read` (at most `sizeof buf = 256` bytes), which `write`
copies unchanged to the destination descriptor. -/
def forward_output (st : PromptState) (buf : List Nat) : Option PromptState :=
  let buf_len : Int := buf.length
  match scan_lf buf buf.length with
  | some i =>
    let prompt_len : Int := buf_len - i
    (memcpy st.prompt 0 (buf.drop i) prompt_len.toNat).map fun p =>
      { prompt := p, prompt_len := prompt_len }
  | none =>
    let old_prompt_len := st.prompt_len
    let prompt_len := st.prompt_len + buf_len
    if INT_MAX < prompt_len then none
    else if size_t prompt_len < 256 then
      (memcpy st.prompt old_prompt_len buf buf.length).bind fun p =>
        (store p prompt_len 0).map fun q => { prompt := q, prompt_len := prompt_len }
    else some { prompt := st.prompt, prompt_len := prompt_len }

/-- Successive calls of `forward_output`, one per chunk read. -/
def forward_all (st : PromptState) : List (List Nat) → Option PromptState
  | [] => some st
  | buf :: rest => (forward_output st buf).bind fun st1 => forward_all st1 rest

/-- The string a `char *` denotes: the bytes before the first NUL. -/
def c_string (a : List Nat) : List Nat := a.takeWhile (· ≠ 0)

/-- PromptBuffer content: the first `prompt_len` bytes of `prompt`. -/
def PromptState.content (st : PromptState) : List Nat := st.prompt.take st.prompt_len.toNat

/-! ## Key encoder -/

/-- What `conin.c` takes from `<windows.h>` and is not defined in this
repository: the two keyboard-layout lookups and the header macros, each macro
given by its value in the variable it is stored into (`UCHAR vk` for the
virtual-key codes, `DWORD dwControlKeyState` for the modifier bits, `WORD
EventType` for `KEY_EVENT`).  `VkKeyScan` maps a `char` to a `SHORT`, `-1` when
the layout has no key for it; `MapVirtualKey vk` is `MapVirtualKey(vk, 0)`. -/
structure Win32 where
  VkKeyScan : Nat → Int
  MapVirtualKey : Nat → Nat
  KEY_EVENT : Nat
  SHIFT_PRESSED : Nat
  LEFT_CTRL_PRESSED : Nat
  RIGHT_ALT_PRESSED : Nat
  VK_UP : Nat
  VK_DOWN : Nat
  VK_RIGHT : Nat
  VK_LEFT : Nat
  VK_END : Nat
  VK_HOME : Nat

/-- An `INPUT_RECORD` holding a key event: `EventType` and the fields of
`Event.KeyEvent`, with `uChar` seen through `AsciiChar`. -/
structure INPUT_RECORD where
  EventType : Nat
  bKeyDown : Bool
  wRepeatCount : Nat
  wVirtualKeyCode : Nat
  wVirtualScanCode : Nat
  AsciiChar : Nat
  dwControlKeyState : Nat
deriving DecidableEq, Repr, Inhabited

/-- The conversion `UCHAR vk = vkks`: the low byte of a `SHORT`. -/
def UCHAR (vkks : Int) : Nat := (vkks % 256).toNat

/-- The conversion `bool b = vkks & mask`: `vkks` is promoted to a 32-bit `int`
in two's complement, and the result is true when a bit of `mask` is set. -/
def and_bool (vkks : Int) (mask : Nat) : Bool := (vkks % 4294967296).toNat &&& mask != 0

/-- The conversion `WORD vsc = MapVirtualKey(vk, 0)`. -/
def WORD (x : Nat) : Nat := x % 65536

/-- The initialiser both encoders use for a key event record. -/
def key_event (W : Win32) (bKeyDown : Bool) (vk vsc c : Nat) (shift ctrl alt : Bool) :
    INPUT_RECORD :=
  { EventType := W.KEY_EVENT
    bKeyDown := bKeyDown
    wRepeatCount := 1
    wVirtualKeyCode := vk
    wVirtualScanCode := vsc
    AsciiChar := c
    dwControlKeyState :=
      shift.toNat * W.SHIFT_PRESSED |||
      ctrl.toNat * W.LEFT_CTRL_PRESSED |||
      alt.toNat * W.RIGHT_ALT_PRESSED }

/-- The calls with an effect outside the program, in the order made. -/
inductive Effect where
  | exit (status : Nat)
  | add_history (line : List Nat)
  | WriteConsoleInput (records : List INPUT_RECORD)
  | rl_set_prompt (text : List Nat)
deriving DecidableEq, Repr

/-! ## Line editor bridge -/

/-- Body of the loop `for (int i = 0; i < len; i++)` of `rl_callback` for one
`i`: both records of character `i` are assigned, then the first is marked as the
key-down. -/
def rl_fill (W : Win32) (line : List Nat) (inrecs : List INPUT_RECORD) (i : Nat) :
    List INPUT_RECORD :=
  let c := line.getD i 0
  let vkks := W.VkKeyScan c
  let vk := UCHAR vkks
  let shift := and_bool vkks 0x100
  let ctrl := and_bool vkks 0x200
  let alt := and_bool vkks 0x400
  let vsc := WORD (W.MapVirtualKey vk)
  let r := key_event W false vk vsc c shift ctrl alt
  let inrecs := inrecs.set (2 * i + 1) r
  let inrecs := inrecs.set (2 * i) r
  inrecs.set (2 * i) { r with bKeyDown := true }

/-- The records `rl_callback` builds for the characters of `line` (already
ending in the carriage return), into an array of `len * 2` records whose
initial content is indeterminate (here: `default`). -/
def rl_records (W : Win32) (line : List Nat) (len : Nat) : List INPUT_RECORD :=
  (List.range len).foldl (rl_fill W line) (List.replicate (len * 2) default)

/-- The callback `rl_callback(line)`: `none` is the null pointer, and `prompt`
is the global array read by `rl_set_prompt(prompt)`. -/
def rl_callback (W : Win32) (prompt : List Nat) (line : Option (List Nat)) : List Effect :=
  match line with
  | none => [Effect.exit 1]
  | some line =>
    let history := if line.headD 0 ≠ 0 then [Effect.add_history line] else []
    let len := line.length + 1
    let line := (line ++ [0]).set (len - 1) 0x0D
    let inrecs := rl_records W line len
    history ++ [Effect.WriteConsoleInput (inrecs.take (len * 2)),
                Effect.rl_set_prompt (c_string prompt)]

/-! ## Direct mode -/

/-- The decoder state `enum {START, SEEN_ESC, SEEN_CSI} state` of `main`. -/
inductive State where
  | START
  | SEEN_ESC
  | SEEN_CSI
deriving DecidableEq, Repr

/-- The tail of the direct-mode branch, reached by `break` from the `switch`:
the key-down record is written, then the same record with `bKeyDown = false`. -/
def direct_emit (W : Win32) (c vk : Nat) (shift ctrl alt : Bool) : List Effect :=
  let vsc := WORD (W.MapVirtualKey vk)
  let inrec := key_event W true vk vsc c shift ctrl alt
  [Effect.WriteConsoleInput [inrec],
   Effect.WriteConsoleInput [{ inrec with bKeyDown := false }]]

/-- One pass through the direct-mode branch of the event loop for the byte `c`
returned by `getchar()`: the new decoder state and the effects. -/
def direct_mode (W : Win32) (state : State) (c : Nat) : State × List Effect :=
  match state with
  | State.START =>
    if c = 0x1B then (State.SEEN_ESC, [])
    else
      let c := if c = 0x0A then 0x0D else if c = 0x7F then 0x08 else c
      let vkks := W.VkKeyScan c
      (State.START,
        direct_emit W c (UCHAR vkks) (and_bool vkks 0x100) (and_bool vkks 0x200)
          (and_bool vkks 0x400))
  | State.SEEN_ESC =>
    if c = 0x5B then (State.SEEN_CSI, [])
    else (State.START, [])
  | State.SEEN_CSI =>
    if c = 0x41 then (State.START, direct_emit W 0 W.VK_UP false false false)
    else if c = 0x42 then (State.START, direct_emit W 0 W.VK_DOWN false false false)
    else if c = 0x43 then (State.START, direct_emit W 0 W.VK_RIGHT false false false)
    else if c = 0x44 then (State.START, direct_emit W 0 W.VK_LEFT false false false)
    else if c = 0x46 then (State.START, direct_emit W 0 W.VK_END false false false)
    else if c = 0x48 then (State.START, direct_emit W 0 W.VK_HOME false false false)
    else (State.START, [])

/-- Successive passes through the direct-mode branch, one per input byte. -/
def direct_feed (W : Win32) (state : State) : List Nat → State × List Effect
  | [] => (state, [])
  | c :: rest =>
    let r := direct_mode W state c
    let q := direct_feed W r.1 rest
    (q.1, r.2 ++ q.2)

/-- The records handed to the console input queue by a list of effects, in
order. -/
def enqueued : List Effect → List INPUT_RECORD
  | [] => []
  | Effect.WriteConsoleInput records :: rest => records ++ enqueued rest
  | _ :: rest => enqueued rest

/-! ## Mode detector -/

/-- The two input paths of the event loop. -/
inductive InputPath where
  | readline
  | direct
deriving DecidableEq, Repr

/-- The test `(mode & 7) == 7` on the word delivered by `GetConsoleMode`. -/
def input_path (mode : Nat) : InputPath :=
  if mode &&& 7 = 7 then InputPath.readline else InputPath.direct

/-! ## Return values of `WriteConsoleInput` -/

/-- The tail of the direct-mode branch (`direct_emit`) given the `BOOL` that
each of its two calls of `WriteConsoleInput` returns.  Both calls are expression
statements of the source: the returned value is dropped and `written` is never
read. -/
def direct_emit_ret (W : Win32) (c vk : Nat) (shift ctrl alt : Bool)
    (_ret_down _ret_up : Bool) : List Effect :=
  let vsc := WORD (W.MapVirtualKey vk)
  let inrec := key_event W true vk vsc c shift ctrl alt
  [Effect.WriteConsoleInput [inrec],
   Effect.WriteConsoleInput [{ inrec with bKeyDown := false }]]

/-- The direct-mode branch (`direct_mode`) given the values returned by the two
calls of `WriteConsoleInput` it may make. -/
def direct_mode_ret (W : Win32) (state : State) (c : Nat) (ret_down ret_up : Bool) :
    State × List Effect :=
  match state with
  | State.START =>
    if c = 0x1B then (State.SEEN_ESC, [])
    else
      let c := if c = 0x0A then 0x0D else if c = 0x7F then 0x08 else c
      let vkks := W.VkKeyScan c
      (State.START,
        direct_emit_ret W c (UCHAR vkks) (and_bool vkks 0x100) (and_bool vkks 0x200)
          (and_bool vkks 0x400) ret_down ret_up)
  | State.SEEN_ESC =>
    if c = 0x5B then (State.SEEN_CSI, [])
    else (State.START, [])
  | State.SEEN_CSI =>
    if c = 0x41 then
      (State.START, direct_emit_ret W 0 W.VK_UP false false false ret_down ret_up)
    else if c = 0x42 then
      (State.START, direct_emit_ret W 0 W.VK_DOWN false false false ret_down ret_up)
    else if c = 0x43 then
      (State.START, direct_emit_ret W 0 W.VK_RIGHT false false false ret_down ret_up)
    else if c = 0x44 then
      (State.START, direct_emit_ret W 0 W.VK_LEFT false false false ret_down ret_up)
    else if c = 0x46 then
      (State.START, direct_emit_ret W 0 W.VK_END false false false ret_down ret_up)
    else if c = 0x48 then
      (State.START, direct_emit_ret W 0 W.VK_HOME false false false ret_down ret_up)
    else (State.START, [])

/-- The callback `rl_callback` given the value returned by its call of
`WriteConsoleInput`, which is an expression statement too. -/
def rl_callback_ret (W : Win32) (prompt : List Nat) (line : Option (List Nat))
    (_ret : Bool) : List Effect :=
  match line with
  | none => [Effect.exit 1]
  | some line =>
    let history := if line.headD 0 ≠ 0 then [Effect.add_history line] else []
    let len := line.length + 1
    let line := (line ++ [0]).set (len - 1) 0x0D
    let inrecs := rl_records W line len
    history ++ [Effect.WriteConsoleInput (inrecs.take (len * 2)),
                Effect.rl_set_prompt (c_string prompt)]

/-! ## Event loop -/

/-- The descriptor set the loop builds at the top of every iteration and hands
to `select`: `FD_ZERO`, then `FD_SET` of 0, `cmdout_fd`, `cmderr_fd`. -/
def fdset (cmdout_fd cmderr_fd : Nat) : List Nat := [0, cmdout_fd, cmderr_fd]

/-- What the input branch of one iteration meets: the word `GetConsoleMode`
delivers, the byte `getchar()` returns on the direct path, and, on the readline
path, the argument with which `rl_callback_read_char` calls the handler when
this character completes a line (`none` when it does not). -/
structure InputEvent where
  mode : Nat
  c : Nat
  rl_line : Option (Option (List Nat))

/-- What one iteration meets after `select` returns: for each child stream
reported ready the chunk `read` delivers (the empty chunk for a zero-length
read), and the input event when descriptor 0 is ready. -/
structure Wakeup where
  out : Option (List Nat)
  err : Option (List Nat)
  input : Option InputEvent

/-- The state `main` carries from one iteration to the next: the globals of the
output relay and the decoder state. -/
structure MainState where
  relay : PromptState
  state : State

/-- Whether an effect ends the process. -/
def isExit : Effect → Bool
  | Effect.exit _ => true
  | _ => false

/-- The body of the `for (;;)` loop after `select` has returned. -/
def loop_body (W : Win32) (m : MainState) (w : Wakeup) : Option (MainState × List Effect) :=
  (match w.out with
    | some buf => forward_output m.relay buf
    | none => some m.relay).bind fun r1 =>
  (match w.err with
    | some buf => forward_output r1 buf
    | none => some r1).bind fun r2 =>
  match w.input with
  | none => some (⟨r2, m.state⟩, [])
  | some ev =>
    match input_path ev.mode with
    | InputPath.readline =>
      match ev.rl_line with
      | none => some (⟨r2, m.state⟩, [])
      | some line => some (⟨r2, m.state⟩, rl_callback W r2.prompt line)
    | InputPath.direct =>
      let r := direct_mode W m.state ev.c
      some (⟨r2, r.1⟩, r.2)

/-- The loop of `main` over the successive wake-ups: the descriptor sets handed
to `select`, one per iteration, and the effects, up to the iteration in which
the process exits. -/
def main_loop (W : Win32) (cmdout_fd cmderr_fd : Nat) :
    MainState → List Wakeup → Option (List (List Nat) × List Effect)
  | _, [] => some ([], [])
  | m, w :: ws =>
    let fds := fdset cmdout_fd cmderr_fd
    match loop_body W m w with
    | none => none
    | some (m1, effects) =>
      if effects.any isExit then some ([fds], effects)
      else (main_loop W cmdout_fd cmderr_fd m1 ws).map fun r => (fds :: r.1, effects ++ r.2)

/-! ## Observations on effects -/

/-- The batches handed to `WriteConsoleInput`, one per call, in order. -/
def batches : List Effect → List (List INPUT_RECORD)
  | [] => []
  | Effect.WriteConsoleInput records :: rest => records :: batches rest
  | _ :: rest => batches rest

/-- The lines handed to `add_history`, one per call, in order. -/
def histories : List Effect → List (List Nat)
  | [] => []
  | Effect.add_history line :: rest => line :: histories rest
  | _ :: rest => histories rest

/-- The texts handed to `rl_set_prompt`, one per call, in order. -/
def prompts_set : List Effect → List (List Nat)
  | [] => []
  | Effect.rl_set_prompt text :: rest => text :: prompts_set rest
  | _ :: rest => prompts_set rest

/-- Whether an effect is a call of `WriteConsoleInput`. -/
def isWrite : Effect → Bool
  | Effect.WriteConsoleInput _ => true
  | _ => false

/-- Whether an effect is a call of `rl_set_prompt`. -/
def isSetPrompt : Effect → Bool
  | Effect.rl_set_prompt _ => true
  | _ => false

/-- The indices of `buf` that the loop `scan_lf`, started at `i`, reads. -/
def scan_lf_reads (buf : List Nat) : Nat → List Nat
  | 0 => []
  | i + 1 => i :: (if buf.getD i 0 = 0x0A then [] else scan_lf_reads buf i)

/-! ## Sample platform -/

/-- A small US-layout sample of the platform lookups together with the header
values of the Windows SDK, used to instantiate the results below. -/
def sampleWin32 : Win32 where
  VkKeyScan := fun c =>
    if 0x61 ≤ c ∧ c ≤ 0x7A then (c : Int) - 0x20
    else if 0x41 ≤ c ∧ c ≤ 0x5A then (c : Int) + 0x100
    else if c = 0x20 ∨ c = 0x0D ∨ c = 0x08 ∨ (0x30 ≤ c ∧ c ≤ 0x39) then (c : Int)
    else if c = 0x2D then 0xBD
    else -1
  MapVirtualKey := fun vk => if vk = 0x0D then 0x1C else if vk = 0x26 then 0x48 else vk % 0x60
  KEY_EVENT := 0x0001
  SHIFT_PRESSED := 0x0010
  LEFT_CTRL_PRESSED := 0x0008
  RIGHT_ALT_PRESSED := 0x0001
  VK_UP := 0x26
  VK_DOWN := 0x28
  VK_RIGHT := 0x27
  VK_LEFT := 0x25
  VK_END := 0x23
  VK_HOME := 0x24

/-! ## Reference (specification side) -/

/-- The bytes of `out` that follow its last `'\n'` (all of `out` when it has
none). -/
def afterLastLF (out : List Nat) : List Nat := (out.reverse.takeWhile (· ≠ 0x0A)).reverse

/-- Reference step of the spec on the PromptBuffer content: a chunk with a line
terminator replaces the content by the chunk's bytes after the last terminator;
a chunk without one is appended. -/
def refStep (content chunk : List Nat) : List Nat :=
  if 0x0A ∈ chunk then afterLastLF chunk else content ++ chunk

/-- Bit `k` of the two's complement representation of `v`. -/
def bitSet (v : Int) (k : Nat) : Bool := decide (v / 2 ^ k % 2 = 1)

/-- The modifier mask that has exactly the given modifiers set. -/
def refModifiers (W : Win32) (shift ctrl alt : Bool) : Nat :=
  (if shift then W.SHIFT_PRESSED else 0) |||
  (if ctrl then W.LEFT_CTRL_PRESSED else 0) |||
  (if alt then W.RIGHT_ALT_PRESSED else 0)

/-- The table of the spec for the final byte of `ESC [ <final>`: `A`, `B`, `C`,
`D`, `F`, `H` stand for Up, Down, Right, Left, End, Home. -/
def csiKeys (W : Win32) : List (Nat × Nat) :=
  [(0x41, W.VK_UP), (0x42, W.VK_DOWN), (0x43, W.VK_RIGHT), (0x44, W.VK_LEFT),
   (0x46, W.VK_END), (0x48, W.VK_HOME)]

/-- The record the loop body of `rl_callback` assigns for the character `c`,
with `bKeyDown` as given. -/
def rl_key (W : Win32) (c : Nat) (down : Bool) : INPUT_RECORD :=
  key_event W down (UCHAR (W.VkKeyScan c)) (WORD (W.MapVirtualKey (UCHAR (W.VkKeyScan c)))) c
    (and_bool (W.VkKeyScan c) 0x100) (and_bool (W.VkKeyScan c) 0x200)
    (and_bool (W.VkKeyScan c) 0x400)

/-! ## Theorems -/

theorem afterLastLF_snoc (a : List Nat) (x : Nat) :
    afterLastLF (a ++ [x]) = if x = 0x0A then [] else afterLastLF a ++ [x] := by
  unfold afterLastLF
  by_cases h : x = 0x0A
  · simp [h, List.takeWhile]
  · simp [h, List.takeWhile]

theorem afterLastLF_append (a b : List Nat) :
    afterLastLF (a ++ b) = if 0x0A ∈ b then afterLastLF b else afterLastLF a ++ b := by
  induction b using List.reverseRecOn with
  | nil => simp
  | append_singleton b x ih =>
    rw [← List.append_assoc, afterLastLF_snoc, afterLastLF_snoc, ih]
    by_cases hx : x = 0x0A
    · simp [hx]
    · by_cases hb : 0x0A ∈ b
      · simp [hx, hb]
      · have : ¬ (0x0A = x) := fun h => hx h.symm
        simp [hx, hb, this]

theorem afterLastLF_of_not_mem (b : List Nat) (h : 0x0A ∉ b) : afterLastLF b = b := by
  have := afterLastLF_append [] b
  simpa [h, afterLastLF] using this

theorem scan_lf_spec (buf : List Nat) (n : Nat) (hn : n ≤ buf.length) :
    match scan_lf buf n with
    | some i => 1 ≤ i ∧ i ≤ n ∧ 0x0A ∈ buf.take n ∧
        afterLastLF (buf.take n) = (buf.take n).drop i
    | none => 0x0A ∉ buf.take n := by
  induction n with
  | zero => simp [scan_lf]
  | succ n ih =>
    have hlt : n < buf.length := by omega
    have htake : buf.take (n + 1) = buf.take n ++ [buf.getD n 0] := by
      rw [List.take_succ, List.getD_eq_getElem?_getD, List.getElem?_eq_getElem hlt]
      simp
    have ih := ih (by omega)
    have hlen : (buf.take n).length = n := by simp; omega
    unfold scan_lf
    by_cases hx : buf.getD n 0 = 0x0A
    · simp only [hx, if_true]
      refine ⟨by omega, le_refl _, ?_, ?_⟩
      · rw [htake, hx]; simp
      · rw [htake, hx, afterLastLF_snoc]
        simp [hlen]
    · simp only [hx, if_false]
      cases hs : scan_lf buf n with
      | none =>
        rw [hs] at ih
        simp only at ih ⊢
        rw [htake]
        intro hmem
        rcases List.mem_append.1 hmem with h | h
        · exact ih h
        · rw [List.mem_singleton] at h; exact hx h.symm
      | some i =>
        rw [hs] at ih
        simp only at ih ⊢
        obtain ⟨h1, h2, h3, h4⟩ := ih
        refine ⟨h1, by omega, ?_, ?_⟩
        · rw [htake]; exact List.mem_append_left _ h3
        · rw [htake, afterLastLF_snoc, if_neg hx, h4, List.drop_append_of_le_length (by omega)]

theorem scan_lf_full (buf : List Nat) :
    (0x0A ∈ buf → ∃ i, scan_lf buf buf.length = some i ∧ 1 ≤ i ∧ i ≤ buf.length ∧
        afterLastLF buf = buf.drop i) ∧
    (0x0A ∉ buf → scan_lf buf buf.length = none) := by
  have h := scan_lf_spec buf buf.length (le_refl _)
  rw [List.take_length] at h
  cases hs : scan_lf buf buf.length with
  | none =>
    rw [hs] at h
    exact ⟨fun hm => absurd hm h, fun _ => rfl⟩
  | some i =>
    rw [hs] at h
    obtain ⟨h1, h2, h3, h4⟩ := h
    exact ⟨fun _ => ⟨i, rfl, h1, h2, h4⟩, fun hm => absurd h3 hm⟩

theorem forward_output_lf (st : PromptState) (buf : List Nat)
    (hp : st.prompt.length = 256) (hb : buf.length ≤ 256) (h : 0x0A ∈ buf) :
    forward_output st buf =
      some ⟨afterLastLF buf ++ st.prompt.drop (afterLastLF buf).length,
            (afterLastLF buf).length⟩ := by
  obtain ⟨i, hs, h1, h2, h4⟩ := (scan_lf_full buf).1 h
  have hl : (afterLastLF buf).length = buf.length - i := by rw [h4]; simp
  have hcast : ((buf.length : Int) - (i : Int)).toNat = buf.length - i := by omega
  unfold forward_output
  simp only [hs, hcast]
  unfold memcpy
  have hc : (0 : Int) ≤ 0 ∧ (0 : Int).toNat + (buf.length - i) ≤ st.prompt.length ∧
      buf.length - i ≤ (buf.drop i).length := by
    refine ⟨le_refl _, ?_, ?_⟩
    · simp; omega
    · simp
  rw [if_pos hc]
  simp only [Option.map_some', Int.toNat_zero, List.take_zero, List.nil_append, Nat.zero_add]
  rw [hl, h4]
  have : List.take (buf.length - i) (List.drop i buf) = List.drop i buf := by
    apply List.take_of_length_le; simp
  rw [this]
  congr 2
  omega

theorem forward_output_append (st : PromptState) (buf : List Nat)
    (hp : st.prompt.length = 256) (h0 : 0 ≤ st.prompt_len) (h : 0x0A ∉ buf)
    (hlt : st.prompt_len + buf.length < 256) :
    forward_output st buf =
      some ⟨(st.prompt.take st.prompt_len.toNat ++ buf ++
               st.prompt.drop (st.prompt_len.toNat + buf.length)).set
               (st.prompt_len.toNat + buf.length) 0,
            st.prompt_len + buf.length⟩ := by
  have hs := (scan_lf_full buf).2 h
  unfold forward_output
  simp only [hs]
  have h1 : ¬ (INT_MAX < st.prompt_len + buf.length) := by unfold INT_MAX; omega
  have h2 : size_t (st.prompt_len + buf.length) < 256 := by unfold size_t; omega
  rw [if_neg h1, if_pos h2]
  unfold memcpy
  have hc : 0 ≤ st.prompt_len ∧ st.prompt_len.toNat + buf.length ≤ st.prompt.length ∧
      buf.length ≤ buf.length := ⟨h0, by omega, le_refl _⟩
  rw [if_pos hc]
  simp only [Option.some_bind, List.take_length]
  unfold store
  have hc2 : 0 ≤ st.prompt_len + buf.length ∧ (st.prompt_len + buf.length).toNat <
      (st.prompt.take st.prompt_len.toNat ++ buf ++
        st.prompt.drop (st.prompt_len.toNat + buf.length)).length := by
    refine ⟨by omega, ?_⟩
    simp
    omega
  rw [if_pos hc2]
  have : (st.prompt_len + buf.length).toNat = st.prompt_len.toNat + buf.length := by omega
  simp [this]

theorem forward_output_skip (st : PromptState) (buf : List Nat) (h : 0x0A ∉ buf)
    (hge : 256 ≤ st.prompt_len + buf.length) (hmax : st.prompt_len + buf.length ≤ INT_MAX) :
    forward_output st buf = some ⟨st.prompt, st.prompt_len + buf.length⟩ := by
  have hs := (scan_lf_full buf).2 h
  unfold forward_output
  simp only [hs]
  have h1 : ¬ (INT_MAX < st.prompt_len + buf.length) := by omega
  have h2 : ¬ (size_t (st.prompt_len + buf.length) < 256) := by
    unfold size_t; unfold INT_MAX at hmax; omega
  rw [if_neg h1, if_neg h2]

theorem afterLastLF_length_lt (b : List Nat) (h : 0x0A ∈ b) :
    (afterLastLF b).length < b.length := by
  obtain ⟨i, _, h1, h2, h4⟩ := (scan_lf_full b).1 h
  rw [h4, List.length_drop]
  omega

/-- What one call does to the content, the array size and the sign of the
length, on a chunk that has a terminator or fits below the cap. -/
theorem forward_output_refStep (st : PromptState) (buf : List Nat)
    (hp : st.prompt.length = 256) (h0 : 0 ≤ st.prompt_len) (hb : buf.length ≤ 256)
    (h : 0x0A ∈ buf ∨ st.prompt_len + buf.length < 256) :
    ∃ st1, forward_output st buf = some st1 ∧ st1.content = refStep st.content buf ∧
      st1.prompt.length = 256 ∧ st1.prompt_len = (refStep st.content buf).length := by
  by_cases hm : 0x0A ∈ buf
  · have hl := afterLastLF_length_lt buf hm
    refine ⟨_, forward_output_lf st buf hp hb hm, ?_, ?_, ?_⟩
    · simp [PromptState.content, refStep, hm]
    · simp [hp]; omega
    · simp [refStep, hm]
  · have hlt : st.prompt_len + buf.length < 256 := h.resolve_left hm
    have hn : (st.prompt_len + buf.length).toNat = st.prompt_len.toNat + buf.length := by omega
    have hlen : (st.prompt.take st.prompt_len.toNat).length = st.prompt_len.toNat := by
      rw [List.length_take]; omega
    refine ⟨_, forward_output_append st buf hp h0 hm hlt, ?_, ?_, ?_⟩
    · simp only [PromptState.content, refStep, hm, if_false, hn]
      have hl2 : (st.prompt.take st.prompt_len.toNat ++ buf).length =
          st.prompt_len.toNat + buf.length := by rw [List.length_append, hlen]
      rw [List.set_take, List.take_left' hl2, List.set_eq_of_length_le (by omega)]
    · simp [hp]; omega
    · simp [refStep, hm, PromptState.content, hlen]; omega

theorem forward_all_tracks (chunks : List (List Nat)) :
    ∀ (st : PromptState) (out : List Nat), st.prompt.length = 256 →
      st.prompt_len = (afterLastLF out).length → st.content = afterLastLF out →
      (∀ c ∈ chunks, c.length ≤ 256) →
      (∀ k ≤ chunks.length, (afterLastLF (out ++ (chunks.take k).flatten)).length < 256) →
      ∃ st1, forward_all st chunks = some st1 ∧ st1.prompt.length = 256 ∧
        st1.prompt_len = (afterLastLF (out ++ chunks.flatten)).length ∧
        st1.content = afterLastLF (out ++ chunks.flatten) := by
  induction chunks with
  | nil =>
    intro st out hp hl hc _ _
    exact ⟨st, rfl, hp, by simpa using hl, by simpa using hc⟩
  | cons buf rest ih =>
    intro st out hp hl hc hsz hcap
    have hb : buf.length ≤ 256 := hsz buf (List.mem_cons_self _ _)
    have href : afterLastLF (out ++ buf) = refStep st.content buf := by
      rw [afterLastLF_append, refStep, hc]
    have h1 : (afterLastLF (out ++ buf)).length < 256 := by
      have := hcap 1 (by simp)
      simpa using this
    have hcond : 0x0A ∈ buf ∨ st.prompt_len + buf.length < 256 := by
      by_cases hm : 0x0A ∈ buf
      · exact Or.inl hm
      · right
        rw [href, refStep, if_neg hm, List.length_append, hc] at h1
        rw [hl]
        omega
    obtain ⟨st1, hf, hc1, hp1, hl1⟩ :=
      forward_output_refStep st buf hp (by rw [hl]; omega) hb hcond
    rw [← href] at hc1 hl1
    obtain ⟨st2, hf2, hp2, hl2, hc2⟩ := ih st1 (out ++ buf) hp1 hl1 hc1
      (fun c hcm => hsz c (List.mem_cons_of_mem _ hcm))
      (fun k hk => by
        have := hcap (k + 1) (by simp; omega)
        simpa [List.append_assoc] using this)
    refine ⟨st2, ?_, hp2, ?_, ?_⟩
    · simp [forward_all, hf, hf2]
    · simpa [List.append_assoc] using hl2
    · simpa [List.append_assoc] using hc2

/-- C1: one call of `forward_output` is the reference step on the PromptBuffer
content (the first `prompt_len` bytes of `prompt`): a chunk with a `'\n'`
replaces the content by the chunk's bytes after its last `'\n'`, and a chunk
without one that keeps the length below 256 is appended.  From the empty buffer
the chunks "abc\ndef", "ghi", "\n" give "def", "defghi" and "". -/
theorem C1_forward_output_is_refStep :
    (∀ (st : PromptState) (buf : List Nat),
      st.prompt.length = 256 → 0 ≤ st.prompt_len → buf.length ≤ 256 →
      (0x0A ∈ buf ∨ st.prompt_len + buf.length < 256) →
      ∃ st1, forward_output st buf = some st1 ∧ st1.content = refStep st.content buf ∧
        (0x0A ∈ buf → st1.content = afterLastLF buf) ∧
        (0x0A ∉ buf → st1.content = st.content ++ buf)) ∧
    (forward_all PromptState.init [[0x61, 0x62, 0x63, 0x0A, 0x64, 0x65, 0x66]]).map
        PromptState.content = some [0x64, 0x65, 0x66] ∧
    (forward_all PromptState.init
        [[0x61, 0x62, 0x63, 0x0A, 0x64, 0x65, 0x66], [0x67, 0x68, 0x69]]).map
        PromptState.content = some [0x64, 0x65, 0x66, 0x67, 0x68, 0x69] ∧
    (forward_all PromptState.init
        [[0x61, 0x62, 0x63, 0x0A, 0x64, 0x65, 0x66], [0x67, 0x68, 0x69], [0x0A]]).map
        PromptState.content = some [] := by
  refine ⟨?_, by decide, by decide, by decide⟩
  intro st buf hp h0 hb h
  obtain ⟨st1, hf, hc, _, _⟩ := forward_output_refStep st buf hp h0 hb h
  refine ⟨st1, hf, hc, ?_, ?_⟩
  · intro hm; rw [hc, refStep, if_pos hm]
  · intro hm; rw [hc, refStep, if_neg hm]

theorem C1_forward_output_is_refStep_witness :
    PromptState.init.prompt.length = 256 ∧ 0 ≤ PromptState.init.prompt_len ∧
    [0x3E, 0x20].length ≤ 256 ∧
    (0x0A ∈ [0x3E, 0x20] ∨ PromptState.init.prompt_len + [0x3E, 0x20].length < 256) ∧
    ∃ st1, forward_output PromptState.init [0x3E, 0x20] = some st1 ∧
      st1.content = refStep PromptState.init.content [0x3E, 0x20] ∧
      (0x0A ∈ [0x3E, 0x20] → st1.content = afterLastLF [0x3E, 0x20]) ∧
      (0x0A ∉ [0x3E, 0x20] → st1.content = PromptState.init.content ++ [0x3E, 0x20]) :=
  ⟨by decide, by decide, by decide, by decide,
    C1_forward_output_is_refStep.1 PromptState.init [0x3E, 0x20]
      (by decide) (by decide) (by decide) (by decide)⟩

/-- C6: starting from the empty buffer, as long as the unterminated tail of the
child's output stays below 256 bytes after every read, the PromptBuffer content
after each read is the part of all output read so far that follows its final
`'\n'` (all of it when there is none). -/
theorem C6_prompt_is_tail_of_output (chunks : List (List Nat))
    (hsz : ∀ c ∈ chunks, c.length ≤ 256)
    (hcap : ∀ k ≤ chunks.length, (afterLastLF (chunks.take k).flatten).length < 256) :
    ∀ k ≤ chunks.length, ∃ st, forward_all PromptState.init (chunks.take k) = some st ∧
      st.content = afterLastLF (chunks.take k).flatten := by
  intro k hk
  obtain ⟨st, hf, _, _, hc⟩ := forward_all_tracks (chunks.take k) PromptState.init []
    (by decide) (by decide) (by decide)
    (fun c hc => hsz c (List.mem_of_mem_take hc))
    (fun j hj => by
      have hjk : j ≤ k := by
        rw [List.length_take] at hj; omega
      have := hcap j (by omega)
      rw [List.take_take, Nat.min_eq_left hjk]
      simpa using this)
  exact ⟨st, hf, by simpa using hc⟩

theorem C6_prompt_is_tail_of_output_witness :
    (∀ c ∈ [[0x61, 0x0A, 0x62], [0x63], [0x0A, 0x24, 0x20]], c.length ≤ 256) ∧
    (∀ k ≤ [[0x61, 0x0A, 0x62], [0x63], [0x0A, 0x24, 0x20]].length,
      (afterLastLF ([[0x61, 0x0A, 0x62], [0x63], [0x0A, 0x24, 0x20]].take k).flatten).length
        < 256) ∧
    (2 ≤ [[0x61, 0x0A, 0x62], [0x63], [0x0A, 0x24, 0x20]].length) ∧
    ∃ st, forward_all PromptState.init
        ([[0x61, 0x0A, 0x62], [0x63], [0x0A, 0x24, 0x20]].take 2) = some st ∧
      st.content = afterLastLF ([[0x61, 0x0A, 0x62], [0x63], [0x0A, 0x24, 0x20]].take 2).flatten :=
  ⟨by decide, by decide, by decide,
    C6_prompt_is_tail_of_output [[0x61, 0x0A, 0x62], [0x63], [0x0A, 0x24, 0x20]]
      (by decide) (by decide) 2 (by decide)⟩

/-- C5 (evaluation at the failing input): after the chunks "abc\ndef", "ghi",
"\n" the PromptBuffer content is empty, yet the string `rl_callback` passes to
`rl_set_prompt` for the next completed line is "defghi": the branch of
`forward_output` that handles a line terminator does not write a NUL after the
new content. -/
theorem C5_editor_prompt_keeps_stale_bytes :
    (forward_all PromptState.init
        [[0x61, 0x62, 0x63, 0x0A, 0x64, 0x65, 0x66], [0x67, 0x68, 0x69], [0x0A]]).map
      (fun st => (st.content, (rl_callback sampleWin32 st.prompt (some [])).getLast?)) =
    some ([], some (Effect.rl_set_prompt [0x64, 0x65, 0x66, 0x67, 0x68, 0x69])) := by
  decide

/-- C8 as stated fails: from the empty buffer, after a first chunk of 200 bytes
without terminator, a second such chunk of 100 bytes would exceed the capacity;
the call leaves the bytes of `prompt` as they were but `prompt_len` goes from
200 to 300. -/
theorem C8_length_changes_on_overflow :
    (0x0A ∉ List.replicate 100 0x61) ∧
    (forward_all PromptState.init [List.replicate 200 0x61]).bind
      (fun st => (forward_output st (List.replicate 100 0x61)).map
        (fun st1 => (st.prompt_len, st1.prompt_len, decide (st1.prompt = st.prompt)))) =
    some (200, 300, true) := by
  decide

/-- C8 amended: for a chunk with no line terminator whose length added to
`prompt_len` reaches or exceeds 256 (and stays within `int`), `forward_output`
skips the append: the bytes of `prompt`, hence the string it holds, are the same
after the call as before, while `prompt_len` is advanced by the chunk length. -/
theorem C8_overflow_keeps_bytes_advances_length (st : PromptState) (buf : List Nat)
    (h : 0x0A ∉ buf) (hge : 256 ≤ st.prompt_len + buf.length)
    (hmax : st.prompt_len + buf.length ≤ INT_MAX) :
    ∃ st1, forward_output st buf = some st1 ∧ st1.prompt = st.prompt ∧
      c_string st1.prompt = c_string st.prompt ∧
      st1.prompt_len = st.prompt_len + buf.length := by
  exact ⟨_, forward_output_skip st buf h hge hmax, rfl, rfl, rfl⟩

theorem C8_overflow_keeps_bytes_advances_length_witness :
    (0x0A ∉ List.replicate 100 0x61) ∧
    (256 ≤ (⟨List.replicate 200 0x62 ++ List.replicate 56 0, 200⟩ : PromptState).prompt_len +
      (List.replicate 100 0x61).length) ∧
    ((⟨List.replicate 200 0x62 ++ List.replicate 56 0, 200⟩ : PromptState).prompt_len +
      (List.replicate 100 0x61).length ≤ INT_MAX) ∧
    ∃ st1, forward_output ⟨List.replicate 200 0x62 ++ List.replicate 56 0, 200⟩
        (List.replicate 100 0x61) = some st1 ∧
      st1.prompt = (⟨List.replicate 200 0x62 ++ List.replicate 56 0, 200⟩ : PromptState).prompt ∧
      c_string st1.prompt = c_string (⟨List.replicate 200 0x62 ++ List.replicate 56 0, 200⟩ : PromptState).prompt ∧
      st1.prompt_len = (⟨List.replicate 200 0x62 ++ List.replicate 56 0, 200⟩ : PromptState).prompt_len +
        (List.replicate 100 0x61).length :=
  ⟨by decide, by decide, by decide,
    C8_overflow_keeps_bytes_advances_length ⟨List.replicate 200 0x62 ++ List.replicate 56 0, 200⟩
      (List.replicate 100 0x61) (by decide) (by decide) (by decide)⟩

theorem and_two_pow_ne_zero (n k : Nat) :
    (n &&& 2 ^ k != 0) = decide (n / 2 ^ k % 2 = 1) := by
  rw [← Nat.testBit_to_div_mod]
  cases hb : n.testBit k with
  | false =>
    have : n &&& 2 ^ k = 0 := by
      apply Nat.eq_of_testBit_eq
      intro i
      rw [Nat.testBit_and, Nat.testBit_two_pow, Nat.zero_testBit]
      by_cases hki : k = i
      · subst hki; simp [hb]
      · simp [hki]
    simp [this]
  | true =>
    have : (n &&& 2 ^ k).testBit k = true := by
      rw [Nat.testBit_and, Nat.testBit_two_pow, hb]; simp
    have hne : n &&& 2 ^ k ≠ 0 := by
      intro h0
      rw [h0, Nat.zero_testBit] at this
      exact Bool.noConfusion this
    simpa using hne

theorem and_bool_0x100 (v : Int) : and_bool v 0x100 = bitSet v 8 := by
  have h := and_two_pow_ne_zero (v % 4294967296).toNat 8
  have e : (2 : Nat) ^ 8 = 0x100 := by norm_num
  rw [e] at h
  unfold and_bool bitSet
  rw [h]
  have : ((v % 4294967296).toNat / 256 % 2 = 1) ↔ (v / 2 ^ 8 % 2 = 1) := by
    norm_num; omega
  simp only [this]

theorem and_bool_0x200 (v : Int) : and_bool v 0x200 = bitSet v 9 := by
  have h := and_two_pow_ne_zero (v % 4294967296).toNat 9
  have e : (2 : Nat) ^ 9 = 0x200 := by norm_num
  rw [e] at h
  unfold and_bool bitSet
  rw [h]
  have : ((v % 4294967296).toNat / 512 % 2 = 1) ↔ (v / 2 ^ 9 % 2 = 1) := by
    norm_num; omega
  simp only [this]

theorem and_bool_0x400 (v : Int) : and_bool v 0x400 = bitSet v 10 := by
  have h := and_two_pow_ne_zero (v % 4294967296).toNat 10
  have e : (2 : Nat) ^ 10 = 0x400 := by norm_num
  rw [e] at h
  unfold and_bool bitSet
  rw [h]
  have : ((v % 4294967296).toNat / 1024 % 2 = 1) ↔ (v / 2 ^ 10 % 2 = 1) := by
    norm_num; omega
  simp only [this]

theorem key_event_modifiers (W : Win32) (down : Bool) (vk vsc c : Nat) (shift ctrl alt : Bool) :
    (key_event W down vk vsc c shift ctrl alt).dwControlKeyState =
      refModifiers W shift ctrl alt := by
  cases shift <;> cases ctrl <;> cases alt <;> simp [key_event, refModifiers]

theorem direct_emit_enqueued (W : Win32) (c vk : Nat) (shift ctrl alt : Bool) :
    ∃ d, direct_emit W c vk shift ctrl alt =
        [Effect.WriteConsoleInput [d],
         Effect.WriteConsoleInput [{ d with bKeyDown := false }]] ∧
      d.bKeyDown = true ∧ d.wVirtualKeyCode = vk ∧ d.AsciiChar = c ∧
      d.wVirtualScanCode = W.MapVirtualKey vk % 65536 ∧
      d.dwControlKeyState = refModifiers W shift ctrl alt :=
  ⟨key_event W true vk (WORD (W.MapVirtualKey vk)) c shift ctrl alt, rfl, rfl, rfl, rfl, rfl,
    key_event_modifiers W true vk _ c shift ctrl alt⟩

theorem refModifiers_none (W : Win32) : refModifiers W false false false = 0 := by
  simp [refModifiers]

theorem direct_mode_start_char (W : Win32) (c : Nat) (hesc : c ≠ 0x1B) :
    ∃ d, direct_mode W State.START c =
        (State.START, [Effect.WriteConsoleInput [d],
                       Effect.WriteConsoleInput [{ d with bKeyDown := false }]]) ∧
      d.bKeyDown = true ∧
      d.AsciiChar = (if c = 0x0A then 0x0D else if c = 0x7F then 0x08 else c) ∧
      d.wVirtualKeyCode =
        (W.VkKeyScan (if c = 0x0A then 0x0D else if c = 0x7F then 0x08 else c) % 256).toNat ∧
      d.dwControlKeyState = refModifiers W
        (bitSet (W.VkKeyScan (if c = 0x0A then 0x0D else if c = 0x7F then 0x08 else c)) 8)
        (bitSet (W.VkKeyScan (if c = 0x0A then 0x0D else if c = 0x7F then 0x08 else c)) 9)
        (bitSet (W.VkKeyScan (if c = 0x0A then 0x0D else if c = 0x7F then 0x08 else c)) 10) := by
  obtain ⟨d, he, h1, h2, h3, _, h5⟩ := direct_emit_enqueued W
    (if c = 0x0A then 0x0D else if c = 0x7F then 0x08 else c)
    (UCHAR (W.VkKeyScan (if c = 0x0A then 0x0D else if c = 0x7F then 0x08 else c)))
    (and_bool (W.VkKeyScan (if c = 0x0A then 0x0D else if c = 0x7F then 0x08 else c)) 0x100)
    (and_bool (W.VkKeyScan (if c = 0x0A then 0x0D else if c = 0x7F then 0x08 else c)) 0x200)
    (and_bool (W.VkKeyScan (if c = 0x0A then 0x0D else if c = 0x7F then 0x08 else c)) 0x400)
  refine ⟨d, ?_, h1, h3, ?_, ?_⟩
  · simp only [direct_mode, if_neg hesc, he]
  · rw [h2]; rfl
  · rw [h5, and_bool_0x100, and_bool_0x200, and_bool_0x400]

/-- C2: in direct mode from `START`, the bytes ESC and `[` enqueue nothing, and
a following `A`, `B`, `C`, `D`, `F` or `H` enqueues exactly one key-down/key-up
pair for Up, Down, Right, Left, End, Home, with a null character and no
modifiers, and the decoder is back in `START`. -/
theorem C2_csi_cursor_keys (W : Win32) :
    direct_mode W State.START 0x1B = (State.SEEN_ESC, []) ∧
    direct_mode W State.SEEN_ESC 0x5B = (State.SEEN_CSI, []) ∧
    ∀ f vk, (f, vk) ∈ csiKeys W →
      ∃ d, direct_mode W State.SEEN_CSI f =
          (State.START, [Effect.WriteConsoleInput [d],
                         Effect.WriteConsoleInput [{ d with bKeyDown := false }]]) ∧
        (direct_feed W State.START [0x1B, 0x5B, f]).1 = State.START ∧
        enqueued (direct_feed W State.START [0x1B, 0x5B, f]).2 =
          [d, { d with bKeyDown := false }] ∧
        d.bKeyDown = true ∧ d.wVirtualKeyCode = vk ∧ d.AsciiChar = 0 ∧
        d.dwControlKeyState = 0 := by
  refine ⟨rfl, rfl, ?_⟩
  intro f vk hmem
  have key : ∀ k : Nat, direct_mode W State.SEEN_CSI f =
        (State.START, direct_emit W 0 k false false false) →
      ∃ d, direct_mode W State.SEEN_CSI f =
          (State.START, [Effect.WriteConsoleInput [d],
                         Effect.WriteConsoleInput [{ d with bKeyDown := false }]]) ∧
        (direct_feed W State.START [0x1B, 0x5B, f]).1 = State.START ∧
        enqueued (direct_feed W State.START [0x1B, 0x5B, f]).2 =
          [d, { d with bKeyDown := false }] ∧
        d.bKeyDown = true ∧ d.wVirtualKeyCode = k ∧ d.AsciiChar = 0 ∧
        d.dwControlKeyState = 0 := by
    intro k hk
    obtain ⟨d, he, h1, h2, h3, _, h5⟩ := direct_emit_enqueued W 0 k false false false
    rw [he] at hk
    have hfeed : direct_feed W State.START [0x1B, 0x5B, f] =
        (State.START, [Effect.WriteConsoleInput [d],
                       Effect.WriteConsoleInput [{ d with bKeyDown := false }]]) := by
      have hesc : direct_mode W State.START 0x1B = (State.SEEN_ESC, []) := rfl
      have hcsi : direct_mode W State.SEEN_ESC 0x5B = (State.SEEN_CSI, []) := rfl
      simp [direct_feed, hesc, hcsi, hk]
    refine ⟨d, hk, ?_, ?_, h1, h2, h3, ?_⟩
    · rw [hfeed]
    · rw [hfeed]; rfl
    · rw [h5, refModifiers_none]
  simp only [csiKeys, List.mem_cons, Prod.mk.injEq, List.mem_singleton, List.not_mem_nil,
    or_false] at hmem
  rcases hmem with ⟨rfl, rfl⟩ | ⟨rfl, rfl⟩ | ⟨rfl, rfl⟩ | ⟨rfl, rfl⟩ | ⟨rfl, rfl⟩ | ⟨rfl, rfl⟩
  · exact key _ rfl
  · exact key _ rfl
  · exact key _ rfl
  · exact key _ rfl
  · exact key _ rfl
  · exact key _ rfl

theorem C2_csi_cursor_keys_witness :
    ((0x41, 0x26) ∈ csiKeys sampleWin32) ∧
    ∃ d, direct_mode sampleWin32 State.SEEN_CSI 0x41 =
        (State.START, [Effect.WriteConsoleInput [d],
                       Effect.WriteConsoleInput [{ d with bKeyDown := false }]]) ∧
      (direct_feed sampleWin32 State.START [0x1B, 0x5B, 0x41]).1 = State.START ∧
      enqueued (direct_feed sampleWin32 State.START [0x1B, 0x5B, 0x41]).2 =
        [d, { d with bKeyDown := false }] ∧
      d.bKeyDown = true ∧ d.wVirtualKeyCode = 0x26 ∧ d.AsciiChar = 0 ∧
      d.dwControlKeyState = 0 :=
  ⟨by decide, (C2_csi_cursor_keys sampleWin32).2.2 0x41 0x26 (by decide)⟩

/-- C4: in direct mode from `START`, a printable character `c` (0x20..0x7E)
enqueues exactly one key-down/key-up pair, the two records equal except for
`bKeyDown`, with character `c`, virtual key the low byte of `VkKeyScan(c)`, and
shift, ctrl, alt set exactly when bits 0x100, 0x200, 0x400 of `VkKeyScan(c)`
are set; the decoder stays in `START`. -/
theorem C4_printable_char_pair (W : Win32) (c : Nat) (hlo : 0x20 ≤ c) (hhi : c ≤ 0x7E) :
    ∃ d, direct_mode W State.START c =
        (State.START, [Effect.WriteConsoleInput [d],
                       Effect.WriteConsoleInput [{ d with bKeyDown := false }]]) ∧
      enqueued (direct_mode W State.START c).2 = [d, { d with bKeyDown := false }] ∧
      d.bKeyDown = true ∧ d.AsciiChar = c ∧
      d.wVirtualKeyCode = (W.VkKeyScan c % 256).toNat ∧
      d.dwControlKeyState = refModifiers W (bitSet (W.VkKeyScan c) 8)
        (bitSet (W.VkKeyScan c) 9) (bitSet (W.VkKeyScan c) 10) := by
  have h1 : c ≠ 0x1B := by omega
  have h2 : c ≠ 0x0A := by omega
  have h3 : c ≠ 0x7F := by omega
  obtain ⟨d, he, hd, hc, hv, hm⟩ := direct_mode_start_char W c h1
  simp only [if_neg h2, if_neg h3] at hc hv hm
  refine ⟨d, he, ?_, hd, hc, hv, hm⟩
  rw [he]; rfl

theorem C4_printable_char_pair_witness :
    (0x20 ≤ 0x41) ∧ (0x41 ≤ 0x7E) ∧
    ∃ d, direct_mode sampleWin32 State.START 0x41 =
        (State.START, [Effect.WriteConsoleInput [d],
                       Effect.WriteConsoleInput [{ d with bKeyDown := false }]]) ∧
      enqueued (direct_mode sampleWin32 State.START 0x41).2 =
        [d, { d with bKeyDown := false }] ∧
      d.bKeyDown = true ∧ d.AsciiChar = 0x41 ∧
      d.wVirtualKeyCode = (sampleWin32.VkKeyScan 0x41 % 256).toNat ∧
      d.dwControlKeyState = refModifiers sampleWin32 (bitSet (sampleWin32.VkKeyScan 0x41) 8)
        (bitSet (sampleWin32.VkKeyScan 0x41) 9) (bitSet (sampleWin32.VkKeyScan 0x41) 10) :=
  ⟨by decide, by decide, C4_printable_char_pair sampleWin32 0x41 (by decide) (by decide)⟩

/-- C7: in direct mode from `START`, ESC `[` `x` with `x` none of `A`, `B`, `C`,
`D`, `F`, `H`, and ESC `y` with `y` other than `[`, enqueue no key event (no
effect at all) and leave the decoder in `START`; the bytes that follow are
processed as from `START`. -/
theorem C7_unrecognised_escape_dropped (W : Win32) :
    (∀ x, x ∉ [0x41, 0x42, 0x43, 0x44, 0x46, 0x48] →
      direct_feed W State.START [0x1B, 0x5B, x] = (State.START, []) ∧
      ∀ rest, direct_feed W State.START (0x1B :: 0x5B :: x :: rest) =
        direct_feed W State.START rest) ∧
    (∀ y, y ≠ 0x5B →
      direct_feed W State.START [0x1B, y] = (State.START, []) ∧
      ∀ rest, direct_feed W State.START (0x1B :: y :: rest) =
        direct_feed W State.START rest) := by
  have hesc : direct_mode W State.START 0x1B = (State.SEEN_ESC, []) := rfl
  have hcsi : direct_mode W State.SEEN_ESC 0x5B = (State.SEEN_CSI, []) := rfl
  constructor
  · intro x hx
    simp only [List.mem_cons, List.mem_singleton, List.not_mem_nil, or_false, not_or] at hx
    obtain ⟨h1, h2, h3, h4, h5, h6⟩ := hx
    have hstep : direct_mode W State.SEEN_CSI x = (State.START, []) := by
      simp [direct_mode, h1, h2, h3, h4, h5, h6]
    constructor
    · simp [direct_feed, hesc, hcsi, hstep]
    · intro rest
      simp [direct_feed, hesc, hcsi, hstep]
  · intro y hy
    have hstep : direct_mode W State.SEEN_ESC y = (State.START, []) := by
      simp [direct_mode, hy]
    constructor
    · simp [direct_feed, hesc, hstep]
    · intro rest
      simp [direct_feed, hesc, hstep]

theorem C7_unrecognised_escape_dropped_witness :
    (0x5A ∉ [0x41, 0x42, 0x43, 0x44, 0x46, 0x48]) ∧
    (direct_feed sampleWin32 State.START [0x1B, 0x5B, 0x5A] = (State.START, []) ∧
      ∀ rest, direct_feed sampleWin32 State.START (0x1B :: 0x5B :: 0x5A :: rest) =
        direct_feed sampleWin32 State.START rest) :=
  ⟨by decide, (C7_unrecognised_escape_dropped sampleWin32).1 0x5A (by decide)⟩

theorem rl_fill_eq (W : Win32) (line : List Nat) (a : List INPUT_RECORD) (i : Nat) :
    rl_fill W line a i =
      (a.set (2 * i + 1) (rl_key W (line.getD i 0) false)).set (2 * i)
        (rl_key W (line.getD i 0) true) := by
  simp [rl_fill, rl_key, key_event, List.set_set]

theorem rl_fold_spec (W : Win32) (line : List Nat) (init : List INPUT_RECORD) (k : Nat) :
    ((List.range k).foldl (rl_fill W line) init).length = init.length ∧
    ∀ i, i < k → 2 * i + 1 < init.length →
      ((List.range k).foldl (rl_fill W line) init)[2 * i]? =
        some (rl_key W (line.getD i 0) true) ∧
      ((List.range k).foldl (rl_fill W line) init)[2 * i + 1]? =
        some (rl_key W (line.getD i 0) false) := by
  induction k with
  | zero => exact ⟨rfl, fun i hi => absurd hi (Nat.not_lt_zero i)⟩
  | succ k ih =>
    obtain ⟨hlen, hget⟩ := ih
    rw [List.range_succ, List.foldl_append, List.foldl_cons, List.foldl_nil, rl_fill_eq]
    refine ⟨by simp [hlen], ?_⟩
    intro i hi hb
    by_cases hik : i = k
    · subst hik
      constructor
      · rw [List.getElem?_set_self (by simp [hlen]; omega)]
      · rw [List.getElem?_set_ne (by omega), List.getElem?_set_self (by simp [hlen]; omega)]
    · have hlt : i < k := by omega
      obtain ⟨g1, g2⟩ := hget i hlt hb
      constructor
      · rw [List.getElem?_set_ne (by omega), List.getElem?_set_ne (by omega), g1]
      · rw [List.getElem?_set_ne (by omega), List.getElem?_set_ne (by omega), g2]

theorem rl_line_cr (line : List Nat) :
    (line ++ [0]).set (line.length + 1 - 1) 0x0D = line ++ [0x0D] := by
  simp

theorem rl_callback_enqueued (W : Win32) (prompt line : List Nat) :
    enqueued (rl_callback W prompt (some line)) =
      rl_records W (line ++ [0x0D]) (line.length + 1) := by
  have hlen : (rl_records W (line ++ [0x0D]) (line.length + 1)).length =
      (line.length + 1) * 2 := by
    unfold rl_records
    rw [(rl_fold_spec W _ _ _).1, List.length_replicate]
  have htake : (rl_records W (line ++ [0x0D]) (line.length + 1)).take ((line.length + 1) * 2) =
      rl_records W (line ++ [0x0D]) (line.length + 1) :=
    List.take_of_length_le (by omega)
  unfold rl_callback
  simp only [rl_line_cr, htake]
  split <;> simp [enqueued]

/-- C3: for a completed non-null line of `n` characters, `rl_callback` enqueues
exactly `2 (n + 1)` records; for every `i` in `0..n`, record `2 i` is a key-down
and record `2 i + 1` is the same record with `bKeyDown` cleared, and the
character of pair `i` is `line[i]` for `i < n` and carriage return for `i = n`.
For "ls -la" these are 7 pairs. -/
theorem C3_rl_callback_pairs (W : Win32) (prompt : List Nat) :
    (∀ (line : List Nat),
      (enqueued (rl_callback W prompt (some line))).length = 2 * (line.length + 1) ∧
      ∀ i, i ≤ line.length →
        ∃ d, (enqueued (rl_callback W prompt (some line)))[2 * i]? = some d ∧
          (enqueued (rl_callback W prompt (some line)))[2 * i + 1]? =
            some { d with bKeyDown := false } ∧
          d.bKeyDown = true ∧
          d.AsciiChar = (if i < line.length then line.getD i 0 else 0x0D)) ∧
    (enqueued (rl_callback W prompt (some [0x6C, 0x73, 0x20, 0x2D, 0x6C, 0x61]))).map
        (fun r => (r.bKeyDown, r.AsciiChar)) =
      [(true, 0x6C), (false, 0x6C), (true, 0x73), (false, 0x73), (true, 0x20), (false, 0x20),
       (true, 0x2D), (false, 0x2D), (true, 0x6C), (false, 0x6C), (true, 0x61), (false, 0x61),
       (true, 0x0D), (false, 0x0D)] := by
  constructor
  · intro line
    rw [rl_callback_enqueued]
    unfold rl_records
    have hspec := rl_fold_spec W (line ++ [0x0D])
      (List.replicate ((line.length + 1) * 2) default) (line.length + 1)
    obtain ⟨hlen, hget⟩ := hspec
    rw [List.length_replicate] at hlen hget
    refine ⟨by rw [hlen]; omega, ?_⟩
    intro i hi
    obtain ⟨g1, g2⟩ := hget i (by omega) (by omega)
    refine ⟨_, g1, ?_, rfl, ?_⟩
    · rw [g2]; rfl
    · show (line ++ [0x0D]).getD i 0 = _
      by_cases hlt : i < line.length
      · rw [if_pos hlt, List.getD_eq_getElem?_getD, List.getD_eq_getElem?_getD,
          List.getElem?_append_left hlt]
      · have : i = line.length := by omega
        subst this
        rw [if_neg hlt, List.getD_eq_getElem?_getD]
        simp
  · rw [rl_callback_enqueued]
    simp [rl_records, List.range, List.range.loop, rl_fill_eq, rl_key, key_event]

theorem C3_rl_callback_pairs_witness :
    (2 ≤ [0x6C, 0x73].length) ∧
    ∃ d, (enqueued (rl_callback sampleWin32 [0] (some [0x6C, 0x73])))[2 * 2]? = some d ∧
      (enqueued (rl_callback sampleWin32 [0] (some [0x6C, 0x73])))[2 * 2 + 1]? =
        some { d with bKeyDown := false } ∧
      d.bKeyDown = true ∧
      d.AsciiChar = (if 2 < [0x6C, 0x73].length then [0x6C, 0x73].getD 2 0 else 0x0D) :=
  ⟨by decide, ((C3_rl_callback_pairs sampleWin32 [0]).1 [0x6C, 0x73]).2 2 (by decide)⟩

/-- C9: the readline path is taken if and only if the three flags
processed-input, line-input and echo-input (masks 1, 2, 4) are all set in the
console mode word; for every other value, whatever its other bits, the direct
path is taken. -/
theorem C9_mode_test (mode : Nat) :
    (input_path mode = InputPath.readline ↔
      (mode &&& 1 ≠ 0 ∧ mode &&& 2 ≠ 0 ∧ mode &&& 4 ≠ 0)) ∧
    (¬ (mode &&& 1 ≠ 0 ∧ mode &&& 2 ≠ 0 ∧ mode &&& 4 ≠ 0) →
      input_path mode = InputPath.direct) := by
  have h7 : mode &&& 7 = mode % 8 := Nat.and_pow_two_sub_one_eq_mod mode 3
  have b1 := and_two_pow_ne_zero mode 1
  have b2 := and_two_pow_ne_zero mode 2
  have e0 : mode &&& 1 ≠ 0 ↔ mode % 2 = 1 := by
    simp
  have e1 : mode &&& 2 ≠ 0 ↔ mode / 2 % 2 = 1 := by
    have := congrArg (fun b => b = true) b1
    simpa using this
  have e2 : mode &&& 4 ≠ 0 ↔ mode / 4 % 2 = 1 := by
    have := congrArg (fun b => b = true) b2
    simpa using this
  rw [e0, e1, e2]
  unfold input_path
  rw [h7]
  constructor
  · constructor
    · intro h
      by_cases h8 : mode % 8 = 7
      · omega
      · rw [if_neg h8] at h; exact absurd h (by decide)
    · intro h
      have h8 : mode % 8 = 7 := by omega
      rw [if_pos h8]
  · intro h
    have h8 : ¬ mode % 8 = 7 := by omega
    rw [if_neg h8]

theorem C9_mode_test_witness :
    ¬ (0x1F5 &&& 1 ≠ 0 ∧ 0x1F5 &&& 2 ≠ 0 ∧ 0x1F5 &&& 4 ≠ 0) ∧
    input_path 0x1F5 = InputPath.direct :=
  ⟨by decide, (C9_mode_test 0x1F5).2 (by decide)⟩

/-- C10: in direct mode from `START`, `'\n'` is emitted as exactly one
key-down/key-up pair with the character, virtual key and modifiers of carriage
return, DEL as one pair with those of backspace, and every other byte except ESC
as one pair with the byte itself as character. -/
theorem C10_lf_and_del_remapped (W : Win32) :
    (direct_mode W State.START 0x0A = direct_mode W State.START 0x0D ∧
      ∃ d, direct_mode W State.START 0x0A =
          (State.START, [Effect.WriteConsoleInput [d],
                         Effect.WriteConsoleInput [{ d with bKeyDown := false }]]) ∧
        d.bKeyDown = true ∧ d.AsciiChar = 0x0D ∧
        d.wVirtualKeyCode = (W.VkKeyScan 0x0D % 256).toNat ∧
        d.dwControlKeyState = refModifiers W (bitSet (W.VkKeyScan 0x0D) 8)
          (bitSet (W.VkKeyScan 0x0D) 9) (bitSet (W.VkKeyScan 0x0D) 10)) ∧
    (direct_mode W State.START 0x7F = direct_mode W State.START 0x08 ∧
      ∃ d, direct_mode W State.START 0x7F =
          (State.START, [Effect.WriteConsoleInput [d],
                         Effect.WriteConsoleInput [{ d with bKeyDown := false }]]) ∧
        d.bKeyDown = true ∧ d.AsciiChar = 0x08 ∧
        d.wVirtualKeyCode = (W.VkKeyScan 0x08 % 256).toNat ∧
        d.dwControlKeyState = refModifiers W (bitSet (W.VkKeyScan 0x08) 8)
          (bitSet (W.VkKeyScan 0x08) 9) (bitSet (W.VkKeyScan 0x08) 10)) ∧
    (∀ c, c ≠ 0x1B → c ≠ 0x0A → c ≠ 0x7F →
      ∃ d, direct_mode W State.START c =
          (State.START, [Effect.WriteConsoleInput [d],
                         Effect.WriteConsoleInput [{ d with bKeyDown := false }]]) ∧
        d.bKeyDown = true ∧ d.AsciiChar = c ∧
        d.wVirtualKeyCode = (W.VkKeyScan c % 256).toNat ∧
        d.dwControlKeyState = refModifiers W (bitSet (W.VkKeyScan c) 8)
          (bitSet (W.VkKeyScan c) 9) (bitSet (W.VkKeyScan c) 10)) := by
  refine ⟨⟨rfl, ?_⟩, ⟨rfl, ?_⟩, ?_⟩
  · obtain ⟨d, he, hd, hc, hv, hm⟩ := direct_mode_start_char W 0x0A (by decide)
    exact ⟨d, he, hd, hc, hv, hm⟩
  · obtain ⟨d, he, hd, hc, hv, hm⟩ := direct_mode_start_char W 0x7F (by decide)
    exact ⟨d, he, hd, hc, hv, hm⟩
  · intro c h1 h2 h3
    obtain ⟨d, he, hd, hc, hv, hm⟩ := direct_mode_start_char W c h1
    simp only [if_neg h2, if_neg h3] at hc hv hm
    exact ⟨d, he, hd, hc, hv, hm⟩

theorem C10_lf_and_del_remapped_witness :
    (0x09 ≠ 0x1B) ∧ (0x09 ≠ 0x0A) ∧ (0x09 ≠ 0x7F) ∧
    ∃ d, direct_mode sampleWin32 State.START 0x09 =
        (State.START, [Effect.WriteConsoleInput [d],
                       Effect.WriteConsoleInput [{ d with bKeyDown := false }]]) ∧
      d.bKeyDown = true ∧ d.AsciiChar = 0x09 ∧
      d.wVirtualKeyCode = (sampleWin32.VkKeyScan 0x09 % 256).toNat ∧
      d.dwControlKeyState = refModifiers sampleWin32 (bitSet (sampleWin32.VkKeyScan 0x09) 8)
        (bitSet (sampleWin32.VkKeyScan 0x09) 9) (bitSet (sampleWin32.VkKeyScan 0x09) 10) :=
  ⟨by decide, by decide, by decide,
    (C10_lf_and_del_remapped sampleWin32).2.2 0x09 (by decide) (by decide) (by decide)⟩

theorem rl_callback_some (W : Win32) (prompt line : List Nat) :
    rl_callback W prompt (some line) =
      (if line.headD 0 ≠ 0 then [Effect.add_history line] else []) ++
        [Effect.WriteConsoleInput (rl_records W (line ++ [0x0D]) (line.length + 1)),
         Effect.rl_set_prompt (c_string prompt)] := by
  have hlen : (rl_records W (line ++ [0x0D]) (line.length + 1)).length =
      (line.length + 1) * 2 := by
    unfold rl_records
    rw [(rl_fold_spec W _ _ _).1, List.length_replicate]
  have htake : (rl_records W (line ++ [0x0D]) (line.length + 1)).take ((line.length + 1) * 2) =
      rl_records W (line ++ [0x0D]) (line.length + 1) :=
    List.take_of_length_le (by omega)
  unfold rl_callback
  simp only [rl_line_cr, htake]

theorem rl_records_length (W : Win32) (line : List Nat) (len : Nat) :
    (rl_records W line len).length = 2 * len := by
  unfold rl_records
  rw [(rl_fold_spec W _ _ _).1, List.length_replicate]
  omega

theorem direct_mode_no_exit (W : Win32) (state : State) (c : Nat) :
    (direct_mode W state c).2.any isExit = false := by
  cases state
  · unfold direct_mode
    simp only []
    split <;> simp [direct_emit, isExit]
  · unfold direct_mode
    simp only []
    split <;> simp
  · unfold direct_mode
    simp only []
    split_ifs <;> simp [direct_emit, isExit]

/-- C11 as stated fails: when every call of `WriteConsoleInput` reports
failure, the direct path for the byte `a` still makes both calls and the
callback for the line "a" still goes on to `rl_set_prompt`; neither trace has an
`exit`. -/
theorem C11_failed_enqueue_not_fatal :
    ((direct_mode_ret sampleWin32 State.START 0x61 false false).2.any isExit,
      (batches (direct_mode_ret sampleWin32 State.START 0x61 false false).2).length) =
      (false, 2) ∧
    ((rl_callback_ret sampleWin32 [0] (some [0x61]) false).any isExit,
      (rl_callback_ret sampleWin32 [0] (some [0x61]) false).getLast?) =
      (false, some (Effect.rl_set_prompt [])) := by
  decide

/-- C11 amended: the value `WriteConsoleInput` returns has no influence.  In the
direct path and in `rl_callback` the effects are the same whatever the calls
return, and for a non-null line none of them is an `exit`: after a failed
key-down call the direct path still makes the key-up call, and `rl_callback`
still ends with `rl_set_prompt`. -/
theorem C11_enqueue_result_ignored (W : Win32) :
    (∀ state c ret_down ret_up,
      direct_mode_ret W state c ret_down ret_up = direct_mode W state c ∧
      (direct_mode_ret W state c ret_down ret_up).2.any isExit = false) ∧
    (∀ prompt line ret,
      rl_callback_ret W prompt (some line) ret = rl_callback W prompt (some line) ∧
      (rl_callback_ret W prompt (some line) ret).any isExit = false ∧
      (rl_callback_ret W prompt (some line) ret).getLast? =
        some (Effect.rl_set_prompt (c_string prompt))) := by
  constructor
  · intro state c r1 r2
    have h : direct_mode_ret W state c r1 r2 = direct_mode W state c := by
      cases state <;> rfl
    exact ⟨h, by rw [h]; exact direct_mode_no_exit W state c⟩
  · intro prompt line r
    have h : rl_callback_ret W prompt (some line) r = rl_callback W prompt (some line) := rfl
    rw [h, rl_callback_some]
    refine ⟨rfl, ?_, ?_⟩
    · split <;> simp [isExit]
    · simp

/-- C12: on the null line `rl_callback` exits the process and does nothing
else: no key event is enqueued, no history entry is recorded, `rl_set_prompt` is
not called, and the event loop makes no further iteration. -/
theorem C12_null_line_exits (W : Win32) (prompt : List Nat) :
    rl_callback W prompt none = [Effect.exit 1] ∧
    enqueued (rl_callback W prompt none) = [] ∧
    histories (rl_callback W prompt none) = [] ∧
    prompts_set (rl_callback W prompt none) = [] ∧
    ∀ (a b : Nat) (m : MainState) (mode c : Nat) (ws : List Wakeup),
      input_path mode = InputPath.readline →
      main_loop W a b m (⟨none, none, some ⟨mode, c, some none⟩⟩ :: ws) =
        some ([fdset a b], [Effect.exit 1]) := by
  refine ⟨rfl, rfl, rfl, rfl, ?_⟩
  intro a b m mode c ws hmode
  simp [main_loop, loop_body, hmode, rl_callback, isExit]

theorem C12_null_line_exits_witness :
    input_path 7 = InputPath.readline ∧
    main_loop sampleWin32 3 5 ⟨PromptState.init, State.START⟩
        (⟨none, none, some ⟨7, 0x04, some none⟩⟩ :: [⟨some [0x61], none, none⟩]) =
      some ([fdset 3 5], [Effect.exit 1]) :=
  ⟨by decide,
    (C12_null_line_exits sampleWin32 []).2.2.2.2 3 5 ⟨PromptState.init, State.START⟩ 7 0x04
      [⟨some [0x61], none, none⟩] (by decide)⟩

/-- C13 as stated fails: after the child wrote "password: " with no terminator,
the callback for the line "hi" calls `WriteConsoleInput` at position 1 of its
effects and `rl_set_prompt` with "password: " at position 2, so the prompt is
set after the line's key events are enqueued, not before. -/
theorem C13_prompt_set_follows_enqueue :
    (forward_output PromptState.init
        [0x70, 0x61, 0x73, 0x73, 0x77, 0x6F, 0x72, 0x64, 0x3A, 0x20]).map
      (fun st =>
        ((rl_callback sampleWin32 st.prompt (some [0x68, 0x69])).findIdx isWrite,
         (rl_callback sampleWin32 st.prompt (some [0x68, 0x69])).findIdx isSetPrompt,
         prompts_set (rl_callback sampleWin32 st.prompt (some [0x68, 0x69])))) =
    some (1, 2, [[0x70, 0x61, 0x73, 0x73, 0x77, 0x6F, 0x72, 0x64, 0x3A, 0x20]]) := by
  decide

/-- C13 amended: after the child wrote "password: " with no terminator, the
callback for any completed line sets the editor's prompt to "password: ", as
its last effect: the single `WriteConsoleInput` call that enqueues the line's
key events comes right before it, and nothing before that call enqueues or sets
a prompt. -/
theorem C13_prompt_resync_after_enqueue :
    ∃ st, forward_output PromptState.init
        [0x70, 0x61, 0x73, 0x73, 0x77, 0x6F, 0x72, 0x64, 0x3A, 0x20] = some st ∧
      st.content = [0x70, 0x61, 0x73, 0x73, 0x77, 0x6F, 0x72, 0x64, 0x3A, 0x20] ∧
      ∀ (W : Win32) (line : List Nat), ∃ before,
        rl_callback W st.prompt (some line) =
          before ++
            [Effect.WriteConsoleInput (enqueued (rl_callback W st.prompt (some line))),
             Effect.rl_set_prompt [0x70, 0x61, 0x73, 0x73, 0x77, 0x6F, 0x72, 0x64, 0x3A, 0x20]] ∧
        batches before = [] ∧ prompts_set before = [] := by
  have hst : forward_output PromptState.init
      [0x70, 0x61, 0x73, 0x73, 0x77, 0x6F, 0x72, 0x64, 0x3A, 0x20] =
      some ⟨[0x70, 0x61, 0x73, 0x73, 0x77, 0x6F, 0x72, 0x64, 0x3A, 0x20] ++
        List.replicate 246 0, 10⟩ := by decide
  refine ⟨_, hst, by decide, ?_⟩
  intro W line
  have hc : c_string ([0x70, 0x61, 0x73, 0x73, 0x77, 0x6F, 0x72, 0x64, 0x3A, 0x20] ++
      List.replicate 246 0) = [0x70, 0x61, 0x73, 0x73, 0x77, 0x6F, 0x72, 0x64, 0x3A, 0x20] := by
    decide
  refine ⟨if line.headD 0 ≠ 0 then [Effect.add_history line] else [], ?_, ?_, ?_⟩
  · rw [rl_callback_enqueued, rl_callback_some, hc]
  · split <;> rfl
  · split <;> rfl

/-- C14 as stated fails: for the line "ls" (2 characters) `rl_callback` makes
one call of `WriteConsoleInput`, with a batch of 6 records, not 3 calls with 2
records each. -/
theorem C14_single_batch_for_two_chars :
    (batches (rl_callback sampleWin32 [0] (some [0x6C, 0x73]))).map List.length = [6] := by
  decide

/-- C14 amended: `rl_callback` submits all the pairs of a line in one batch:
for a line of `n` characters there is exactly one call of `WriteConsoleInput`,
carrying the `2 (n + 1)` records of the `n + 1` pairs in order. -/
theorem C14_rl_callback_one_batch (W : Win32) (prompt line : List Nat) :
    ∃ records, batches (rl_callback W prompt (some line)) = [records] ∧
      records.length = 2 * (line.length + 1) ∧
      records = enqueued (rl_callback W prompt (some line)) := by
  refine ⟨rl_records W (line ++ [0x0D]) (line.length + 1), ?_, rl_records_length W _ _,
    (rl_callback_enqueued W prompt line).symm⟩
  rw [rl_callback_some]
  split <;> rfl

/-- C16: for a completed non-null line, `add_history` is called once, with the
line, when the first character of the line is not NUL (for a C string: when the
line is not empty), and is not called otherwise; the empty line is not recorded
and still enqueues the single carriage-return pair. -/
theorem C16_history_iff_nonempty (W : Win32) (prompt : List Nat) :
    (∀ line : List Nat, line.headD 0 ≠ 0 →
      histories (rl_callback W prompt (some line)) = [line]) ∧
    (∀ line : List Nat, line.headD 0 = 0 →
      histories (rl_callback W prompt (some line)) = []) ∧
    (∀ line : List Nat, (∀ c ∈ line, c ≠ 0) →
      (line ≠ [] ↔ histories (rl_callback W prompt (some line)) = [line])) ∧
    (histories (rl_callback W prompt (some [])) = [] ∧
      ∃ d, enqueued (rl_callback W prompt (some [])) = [d, { d with bKeyDown := false }] ∧
        d.bKeyDown = true ∧ d.AsciiChar = 0x0D) := by
  have hyes : ∀ line : List Nat, line.headD 0 ≠ 0 →
      histories (rl_callback W prompt (some line)) = [line] := by
    intro line h
    rw [rl_callback_some, if_pos h]
    rfl
  have hno : ∀ line : List Nat, line.headD 0 = 0 →
      histories (rl_callback W prompt (some line)) = [] := by
    intro line h
    rw [rl_callback_some, if_neg (by simpa using h)]
    rfl
  refine ⟨hyes, hno, ?_, hno [] rfl, ?_⟩
  · intro line hnz
    cases line with
    | nil =>
      constructor
      · intro h; exact absurd rfl h
      · intro h
        rw [hno [] rfl] at h
        exact absurd h (by simp)
    | cons c cs =>
      constructor
      · intro _
        exact hyes (c :: cs) (hnz c (List.mem_cons_self _ _))
      · intro _ h
        exact List.noConfusion h
  · refine ⟨rl_key W 0x0D true, ?_, rfl, rfl⟩
    rw [rl_callback_enqueued]
    simp [rl_records, List.range, List.range.loop, rl_fill_eq, rl_key, key_event]

theorem C16_history_iff_nonempty_witness :
    ([0x6C, 0x73].headD 0 ≠ 0) ∧
    histories (rl_callback sampleWin32 [0] (some [0x6C, 0x73])) = [[0x6C, 0x73]] :=
  ⟨by decide, (C16_history_iff_nonempty sampleWin32 [0]).1 [0x6C, 0x73] (by decide)⟩

/-- C15 as stated fails: with `cmdout_fd = 3` and `cmderr_fd = 5`, after a first
iteration in which `forward_output` gets a zero-length read from descriptor 3,
the next iteration again hands the set {0, 3, 5} to `select`. -/
theorem C15_closed_stream_still_selected :
    (main_loop sampleWin32 3 5 ⟨PromptState.init, State.START⟩
        [⟨some [], none, none⟩, ⟨none, none, none⟩]).map
      (fun r => (r.1, decide (3 ∈ r.1.getD 1 []))) =
    some ([[0, 3, 5], [0, 3, 5]], true) := by
  decide

/-- C15 amended: the event loop never changes what it selects on.  Whatever the
reads return, a zero-length read included, the descriptor set of every
iteration is {0, `cmdout_fd`, `cmderr_fd`}. -/
theorem C15_wait_set_constant (W : Win32) (cmdout_fd cmderr_fd : Nat) (ws : List Wakeup) :
    ∀ (m : MainState) (sets : List (List Nat)) (effects : List Effect),
      main_loop W cmdout_fd cmderr_fd m ws = some (sets, effects) →
      ∀ fds ∈ sets, fds = [0, cmdout_fd, cmderr_fd] := by
  induction ws with
  | nil =>
    intro m sets effects h
    simp only [main_loop, Option.some.injEq, Prod.mk.injEq] at h
    intro fds hmem
    rw [← h.1] at hmem
    exact absurd hmem (List.not_mem_nil _)
  | cons w ws ih =>
    intro m sets effects h
    unfold main_loop at h
    cases hb : loop_body W m w with
    | none => rw [hb] at h; exact Option.noConfusion h
    | some r =>
      obtain ⟨m1, eff⟩ := r
      rw [hb] at h
      simp only at h
      by_cases hx : eff.any isExit = true
      · rw [if_pos hx] at h
        simp only [Option.some.injEq, Prod.mk.injEq] at h
        intro fds hmem
        rw [← h.1] at hmem
        simpa [fdset] using hmem
      · rw [if_neg hx] at h
        cases hr : main_loop W cmdout_fd cmderr_fd m1 ws with
        | none => rw [hr] at h; exact Option.noConfusion h
        | some q =>
          obtain ⟨sets1, eff1⟩ := q
          rw [hr] at h
          simp only [Option.map_some', Option.some.injEq, Prod.mk.injEq] at h
          intro fds hmem
          rw [← h.1] at hmem
          rcases List.mem_cons.1 hmem with h0 | h1
          · rw [h0]; rfl
          · exact ih m1 sets1 eff1 hr fds h1

theorem C15_wait_set_constant_witness :
    main_loop sampleWin32 3 5 ⟨PromptState.init, State.START⟩
        [⟨some [], none, none⟩, ⟨none, none, none⟩] =
      some ([[0, 3, 5], [0, 3, 5]], []) ∧
    [0, 3, 5] ∈ [[0, 3, 5], [0, 3, 5]] ∧ [0, 3, 5] = [0, 3, 5] :=
  ⟨by decide, by decide,
    C15_wait_set_constant sampleWin32 3 5 [⟨some [], none, none⟩, ⟨none, none, none⟩]
      ⟨PromptState.init, State.START⟩ [[0, 3, 5], [0, 3, 5]] [] (by decide) [0, 3, 5]
      (by decide)⟩

theorem enqueued_append (a b : List Effect) : enqueued (a ++ b) = enqueued a ++ enqueued b := by
  induction a with
  | nil => rfl
  | cons e rest ih =>
    cases e <;> simp [enqueued, ih]

theorem direct_emit_records (W : Win32) (c vk : Nat) (shift ctrl alt : Bool) :
    enqueued (direct_emit W c vk shift ctrl alt) =
      [key_event W true vk (WORD (W.MapVirtualKey vk)) c shift ctrl alt,
       key_event W false vk (WORD (W.MapVirtualKey vk)) c shift ctrl alt] := rfl

theorem direct_mode_char_ok (W : Win32) (state : State) (c : Nat) :
    ∀ r ∈ enqueued (direct_mode W state c).2,
      r.AsciiChar ≠ 0x1B ∧ r.AsciiChar ≠ 0x0A ∧ r.AsciiChar ≠ 0x7F := by
  intro r hr
  cases state
  · unfold direct_mode at hr
    simp only [] at hr
    by_cases hesc : c = 0x1B
    · rw [if_pos hesc] at hr
      exact absurd hr (List.not_mem_nil _)
    · rw [if_neg hesc] at hr
      simp only [direct_emit_records, List.mem_cons, List.mem_singleton,
        List.not_mem_nil, or_false] at hr
      have hc : (if c = 0x0A then 0x0D else if c = 0x7F then 0x08 else c) ≠ 0x1B ∧
          (if c = 0x0A then 0x0D else if c = 0x7F then 0x08 else c) ≠ 0x0A ∧
          (if c = 0x0A then 0x0D else if c = 0x7F then 0x08 else c) ≠ 0x7F := by
        split_ifs <;> omega
      rcases hr with h | h <;> (rw [h]; exact hc)
  · unfold direct_mode at hr
    simp only [] at hr
    split at hr <;> exact absurd hr (List.not_mem_nil _)
  · unfold direct_mode at hr
    simp only [] at hr
    split_ifs at hr <;>
      first
      | exact absurd hr (List.not_mem_nil _)
      | (simp only [direct_emit_records, List.mem_cons, List.mem_singleton,
          List.not_mem_nil, or_false] at hr
         rcases hr with h | h <;>
           (rw [h]; exact ⟨by simp [key_event], by simp [key_event], by simp [key_event]⟩))

theorem direct_mode_emit_start (W : Win32) (state : State) (c : Nat)
    (h : enqueued (direct_mode W state c).2 ≠ []) : (direct_mode W state c).1 = State.START := by
  cases state
  · unfold direct_mode at h ⊢
    simp only [] at h ⊢
    by_cases hesc : c = 0x1B
    · rw [if_pos hesc] at h
      exact absurd rfl h
    · rw [if_neg hesc]
  · unfold direct_mode at h ⊢
    simp only [] at h ⊢
    by_cases hcsi : c = 0x5B
    · rw [if_pos hcsi] at h
      exact absurd rfl h
    · rw [if_neg hcsi]
  · unfold direct_mode
    simp only []
    split_ifs <;> rfl

/-- C20: in direct mode, for every input byte stream and every starting decoder
state, no enqueued key event has the character ESC, LF or DEL, and every byte
that enqueues something leaves the decoder in `START`. -/
theorem C20_no_esc_lf_del_payload (W : Win32) :
    (∀ (bytes : List Nat) (state : State), ∀ r ∈ enqueued (direct_feed W state bytes).2,
      r.AsciiChar ≠ 0x1B ∧ r.AsciiChar ≠ 0x0A ∧ r.AsciiChar ≠ 0x7F) ∧
    (∀ (state : State) (c : Nat), enqueued (direct_mode W state c).2 ≠ [] →
      (direct_mode W state c).1 = State.START) := by
  refine ⟨?_, direct_mode_emit_start W⟩
  intro bytes
  induction bytes with
  | nil =>
    intro state r hr
    exact absurd hr (List.not_mem_nil _)
  | cons c rest ih =>
    intro state r hr
    simp only [direct_feed, enqueued_append, List.mem_append] at hr
    rcases hr with h | h
    · exact direct_mode_char_ok W state c r h
    · exact ih _ r h

theorem C20_no_esc_lf_del_payload_witness :
    (key_event sampleWin32 true 0x0D 0x1C 0x0D false false false ∈
      enqueued (direct_feed sampleWin32 State.SEEN_ESC [0x1B, 0x0A, 0x7F]).2) ∧
    ((key_event sampleWin32 true 0x0D 0x1C 0x0D false false false).AsciiChar ≠ 0x1B ∧
      (key_event sampleWin32 true 0x0D 0x1C 0x0D false false false).AsciiChar ≠ 0x0A ∧
      (key_event sampleWin32 true 0x0D 0x1C 0x0D false false false).AsciiChar ≠ 0x7F) :=
  ⟨by decide,
    (C20_no_esc_lf_del_payload sampleWin32).1 [0x1B, 0x0A, 0x7F] State.SEEN_ESC
      (key_event sampleWin32 true 0x0D 0x1C 0x0D false false false) (by decide)⟩

theorem line_cr_getD (line : List Nat) (i : Nat) (hi : i ≤ line.length) :
    (line ++ [0x0D]).getD i 0 = (if i < line.length then line.getD i 0 else 0x0D) := by
  by_cases hlt : i < line.length
  · rw [if_pos hlt, List.getD_eq_getElem?_getD, List.getD_eq_getElem?_getD,
      List.getElem?_append_left hlt]
  · have : i = line.length := by omega
    subst this
    rw [if_neg hlt, List.getD_eq_getElem?_getD]
    simp

theorem rl_callback_pair_at (W : Win32) (prompt line : List Nat) (i : Nat)
    (hi : i ≤ line.length) :
    (enqueued (rl_callback W prompt (some line)))[2 * i]? =
      some (rl_key W (if i < line.length then line.getD i 0 else 0x0D) true) ∧
    (enqueued (rl_callback W prompt (some line)))[2 * i + 1]? =
      some (rl_key W (if i < line.length then line.getD i 0 else 0x0D) false) := by
  rw [rl_callback_enqueued, ← line_cr_getD line i hi]
  unfold rl_records
  have hspec := (rl_fold_spec W (line ++ [0x0D])
    (List.replicate ((line.length + 1) * 2) default) (line.length + 1)).2 i (by omega)
    (by rw [List.length_replicate]; omega)
  exact hspec

theorem direct_mode_start_records (W : Win32) (c : Nat) (hesc : c ≠ 0x1B) :
    direct_mode W State.START c =
      (State.START,
        [Effect.WriteConsoleInput
          [rl_key W (if c = 0x0A then 0x0D else if c = 0x7F then 0x08 else c) true],
         Effect.WriteConsoleInput
          [rl_key W (if c = 0x0A then 0x0D else if c = 0x7F then 0x08 else c) false]]) := by
  simp only [direct_mode, if_neg hesc]
  rfl

/-- C18: the two key encoders agree.  For every byte `c` other than ESC, the
key-down/key-up pair the direct path enqueues for `c` from `START` (LF remapped
to CR, DEL to BS) is, record for record, the pair `rl_callback` builds at any
position of a line that holds the remapped character (the carriage return that
ends the line included). -/
theorem C18_encoders_agree (W : Win32) (prompt line : List Nat) (c i : Nat)
    (hesc : c ≠ 0x1B) (hi : i ≤ line.length)
    (hc : (if i < line.length then line.getD i 0 else 0x0D) =
      (if c = 0x0A then 0x0D else if c = 0x7F then 0x08 else c)) :
    ∃ d u, enqueued (direct_mode W State.START c).2 = [d, u] ∧
      (enqueued (rl_callback W prompt (some line)))[2 * i]? = some d ∧
      (enqueued (rl_callback W prompt (some line)))[2 * i + 1]? = some u := by
  obtain ⟨h1, h2⟩ := rl_callback_pair_at W prompt line i hi
  rw [hc] at h1 h2
  refine ⟨_, _, ?_, h1, h2⟩
  rw [direct_mode_start_records W c hesc]
  rfl

theorem C18_encoders_agree_witness :
    (0x0A ≠ 0x1B) ∧ (2 ≤ [0x6C, 0x73].length) ∧
    ((if 2 < [0x6C, 0x73].length then [0x6C, 0x73].getD 2 0 else 0x0D) =
      (if 0x0A = 0x0A then 0x0D else if 0x0A = 0x7F then 0x08 else 0x0A)) ∧
    ∃ d u, enqueued (direct_mode sampleWin32 State.START 0x0A).2 = [d, u] ∧
      (enqueued (rl_callback sampleWin32 [0] (some [0x6C, 0x73])))[2 * 2]? = some d ∧
      (enqueued (rl_callback sampleWin32 [0] (some [0x6C, 0x73])))[2 * 2 + 1]? = some u :=
  ⟨by decide, by decide, by decide,
    C18_encoders_agree sampleWin32 [0] [0x6C, 0x73] 0x0A 2 (by decide) (by decide) (by decide)⟩

theorem rl_key_no_key (W : Win32) (c : Nat) (down : Bool) (h : W.VkKeyScan c = -1) :
    (rl_key W c down).bKeyDown = down ∧ (rl_key W c down).AsciiChar = c ∧
    (rl_key W c down).wVirtualKeyCode = 0xFF ∧
    (rl_key W c down).dwControlKeyState =
      W.SHIFT_PRESSED ||| W.LEFT_CTRL_PRESSED ||| W.RIGHT_ALT_PRESSED := by
  refine ⟨rfl, rfl, ?_, ?_⟩
  · show UCHAR (W.VkKeyScan c) = 0xFF
    rw [h]; decide
  · unfold rl_key
    rw [key_event_modifiers, and_bool_0x100, and_bool_0x200, and_bool_0x400, h]
    have e8 : bitSet (-1) 8 = true := by decide
    have e9 : bitSet (-1) 9 = true := by decide
    have e10 : bitSet (-1) 10 = true := by decide
    rw [e8, e9, e10]
    rfl

/-- C19: when `VkKeyScan` returns -1 for the character a path looks up, the
path still enqueues the key-down/key-up pair for that character, with virtual
key code 0xFF and shift, ctrl and alt all set in the modifier mask.  In the
direct path the character looked up is the input byte, any byte but ESC, after
the LF-to-CR and DEL-to-BS remap; in `rl_callback` it is any character of the
line or the final carriage return. -/
theorem C19_no_key_still_enqueued (W : Win32) :
    (∀ c, c ≠ 0x1B →
      W.VkKeyScan (if c = 0x0A then 0x0D else if c = 0x7F then 0x08 else c) = -1 →
      ∃ d, direct_mode W State.START c =
          (State.START, [Effect.WriteConsoleInput [d],
                         Effect.WriteConsoleInput [{ d with bKeyDown := false }]]) ∧
        d.bKeyDown = true ∧
        d.AsciiChar = (if c = 0x0A then 0x0D else if c = 0x7F then 0x08 else c) ∧
        d.wVirtualKeyCode = 0xFF ∧
        d.dwControlKeyState =
          W.SHIFT_PRESSED ||| W.LEFT_CTRL_PRESSED ||| W.RIGHT_ALT_PRESSED) ∧
    (∀ (prompt line : List Nat) (i : Nat), i ≤ line.length →
      W.VkKeyScan (if i < line.length then line.getD i 0 else 0x0D) = -1 →
      ∃ d, (enqueued (rl_callback W prompt (some line)))[2 * i]? = some d ∧
        (enqueued (rl_callback W prompt (some line)))[2 * i + 1]? =
          some { d with bKeyDown := false } ∧
        d.bKeyDown = true ∧
        d.AsciiChar = (if i < line.length then line.getD i 0 else 0x0D) ∧
        d.wVirtualKeyCode = 0xFF ∧
        d.dwControlKeyState =
          W.SHIFT_PRESSED ||| W.LEFT_CTRL_PRESSED ||| W.RIGHT_ALT_PRESSED) := by
  constructor
  · intro c hesc hv
    obtain ⟨k1, k2, k3, k4⟩ := rl_key_no_key W _ true hv
    exact ⟨_, direct_mode_start_records W c hesc, k1, k2, k3, k4⟩
  · intro prompt line i hi hv
    obtain ⟨h1, h2⟩ := rl_callback_pair_at W prompt line i hi
    obtain ⟨k1, k2, k3, k4⟩ := rl_key_no_key W _ true hv
    exact ⟨_, h1, h2, k1, k2, k3, k4⟩

theorem C19_no_key_still_enqueued_witness :
    (0x21 ≠ 0x1B) ∧
    (sampleWin32.VkKeyScan (if 0x21 = 0x0A then 0x0D else if 0x21 = 0x7F then 0x08 else 0x21)
      = -1) ∧
    ∃ d, direct_mode sampleWin32 State.START 0x21 =
        (State.START, [Effect.WriteConsoleInput [d],
                       Effect.WriteConsoleInput [{ d with bKeyDown := false }]]) ∧
      d.bKeyDown = true ∧
      d.AsciiChar = (if 0x21 = 0x0A then 0x0D else if 0x21 = 0x7F then 0x08 else 0x21) ∧
      d.wVirtualKeyCode = 0xFF ∧
      d.dwControlKeyState =
        sampleWin32.SHIFT_PRESSED ||| sampleWin32.LEFT_CTRL_PRESSED |||
          sampleWin32.RIGHT_ALT_PRESSED :=
  ⟨by decide, by decide, (C19_no_key_still_enqueued sampleWin32).1 0x21 (by decide) (by decide)⟩

theorem forward_output_safe (st : PromptState) (buf : List Nat)
    (hp : st.prompt.length = 256) (h0 : 0 ≤ st.prompt_len) (hz : st.prompt[255]? = some 0)
    (hb : buf.length ≤ 256) (hmax : 0x0A ∈ buf ∨ st.prompt_len + buf.length ≤ INT_MAX) :
    ∃ st1, forward_output st buf = some st1 ∧ st1.prompt.length = 256 ∧
      st1.prompt[255]? = some 0 ∧
      st1.prompt_len =
        (if 0x0A ∈ buf then ((afterLastLF buf).length : Int) else st.prompt_len + buf.length) := by
  by_cases hm : 0x0A ∈ buf
  · have hl := afterLastLF_length_lt buf hm
    refine ⟨_, forward_output_lf st buf hp hb hm, ?_, ?_, ?_⟩
    · simp [hp]; omega
    · show (afterLastLF buf ++ st.prompt.drop (afterLastLF buf).length)[255]? = some 0
      rw [List.getElem?_append_right (by omega), List.getElem?_drop]
      have e : (afterLastLF buf).length + (255 - (afterLastLF buf).length) = 255 := by omega
      rw [e]; exact hz
    · simp [hm]
  · have hmax1 := hmax.resolve_left hm
    by_cases hlt : st.prompt_len + buf.length < 256
    · have hlen : (st.prompt.take st.prompt_len.toNat ++ buf).length =
          st.prompt_len.toNat + buf.length := by
        rw [List.length_append, List.length_take]; omega
      refine ⟨_, forward_output_append st buf hp h0 hm hlt, ?_, ?_, ?_⟩
      · simp [hp]; omega
      · show ((st.prompt.take st.prompt_len.toNat ++ buf ++
            st.prompt.drop (st.prompt_len.toNat + buf.length)).set
            (st.prompt_len.toNat + buf.length) 0)[255]? = some 0
        rw [List.getElem?_set]
        by_cases e : st.prompt_len.toNat + buf.length = 255
        · rw [if_pos e, if_pos (by simp [hp]; omega)]
        · rw [if_neg e, List.getElem?_append_right (by rw [hlen]; omega), List.getElem?_drop,
            hlen]
          have e2 : st.prompt_len.toNat + buf.length +
              (255 - (st.prompt_len.toNat + buf.length)) = 255 := by omega
          rw [e2]; exact hz
      · simp [hm]
    · refine ⟨_, forward_output_skip st buf hm (by omega) hmax1, hp, hz, ?_⟩
      simp [hm]

theorem forward_all_safe (chunks : List (List Nat)) :
    ∀ (st : PromptState) (out : List Nat), st.prompt.length = 256 →
      st.prompt_len = (afterLastLF out).length → st.prompt[255]? = some 0 →
      (∀ c ∈ chunks, c.length ≤ 256) →
      (∀ k ≤ chunks.length,
        ((afterLastLF (out ++ (chunks.take k).flatten)).length : Int) ≤ INT_MAX) →
      ∃ st1, forward_all st chunks = some st1 ∧ st1.prompt.length = 256 ∧
        st1.prompt[255]? = some 0 := by
  induction chunks with
  | nil =>
    intro st out hp _ hz _ _
    exact ⟨st, rfl, hp, hz⟩
  | cons buf rest ih =>
    intro st out hp hl hz hsz htot
    have hb : buf.length ≤ 256 := hsz buf (List.mem_cons_self _ _)
    have h1 : ((afterLastLF (out ++ buf)).length : Int) ≤ INT_MAX := by
      have := htot 1 (by simp)
      simpa using this
    have hcond : 0x0A ∈ buf ∨ st.prompt_len + buf.length ≤ INT_MAX := by
      by_cases hm : 0x0A ∈ buf
      · exact Or.inl hm
      · right
        rw [afterLastLF_append, if_neg hm, List.length_append] at h1
        rw [hl]
        push_cast at h1
        exact h1
    obtain ⟨st1, hf, hp1, hz1, hl1⟩ :=
      forward_output_safe st buf hp (by rw [hl]; omega) hz hb hcond
    have hl1b : st1.prompt_len = (afterLastLF (out ++ buf)).length := by
      rw [hl1, afterLastLF_append]
      by_cases hm : 0x0A ∈ buf
      · rw [if_pos hm, if_pos hm]
      · rw [if_neg hm, if_neg hm, List.length_append, hl]
        push_cast
        rfl
    obtain ⟨st2, hf2, hp2, hz2⟩ := ih st1 (out ++ buf) hp1 hl1b hz1
      (fun c hcm => hsz c (List.mem_cons_of_mem _ hcm))
      (fun k hk => by
        have := htot (k + 1) (by simp; omega)
        simpa [List.append_assoc] using this)
    exact ⟨st2, by simp [forward_all, hf, hf2], hp2, hz2⟩

theorem c_string_length_le (a : List Nat) :
    ∀ k, a[k]? = some 0 → (c_string a).length ≤ k := by
  induction a with
  | nil => intro k h; simp at h
  | cons x xs ih =>
    intro k h
    cases k with
    | zero =>
      simp only [List.getElem?_cons_zero, Option.some.injEq] at h
      simp [c_string, List.takeWhile, h]
    | succ k =>
      simp only [List.getElem?_cons_succ] at h
      have := ih k h
      unfold c_string at this ⊢
      by_cases hx : x = 0
      · simp [List.takeWhile, hx]
      · simp only [ne_eq] at this
        simp only [List.takeWhile, ne_eq, hx, not_false_eq_true, decide_True, List.length_cons]
        omega

theorem scan_lf_reads_lt (buf : List Nat) :
    ∀ n, ∀ j ∈ scan_lf_reads buf n, j < n := by
  intro n
  induction n with
  | zero => intro j hj; exact absurd hj (List.not_mem_nil _)
  | succ n ih =>
    intro j hj
    unfold scan_lf_reads at hj
    rcases List.mem_cons.1 hj with h | h
    · omega
    · by_cases hx : buf.getD n 0 = 0x0A
      · rw [if_pos hx] at h
        exact absurd h (List.not_mem_nil _)
      · rw [if_neg hx] at h
        have := ih j h
        omega

/-- C17: buffer safety of the prompt tracker.  For every sequence of reads of at
most 256 bytes each, with the running total of unterminated bytes below 2^31,
after every read all calls of `forward_output` have returned without an
out-of-bounds copy or store, `prompt` is still a 256-byte array with
`prompt[255] = 0`, so the string passed to `rl_set_prompt` ends inside the
array, and the scan for a line feed reads the chunk only at indices below its
length. -/
theorem C17_prompt_tracker_in_bounds (chunks : List (List Nat))
    (hsz : ∀ c ∈ chunks, c.length ≤ 256)
    (htot : ∀ k ≤ chunks.length,
      ((afterLastLF (chunks.take k).flatten).length : Int) < 2147483648) :
    (∀ k ≤ chunks.length, ∃ st, forward_all PromptState.init (chunks.take k) = some st ∧
      st.prompt.length = 256 ∧ st.prompt[255]? = some 0 ∧
      (c_string st.prompt).length ≤ 255) ∧
    (∀ c ∈ chunks, ∀ j ∈ scan_lf_reads c c.length, j < c.length ∧ j < 256) := by
  constructor
  · intro k hk
    obtain ⟨st, hf, hp, hz⟩ := forward_all_safe (chunks.take k) PromptState.init []
      (by decide) (by decide) (by decide)
      (fun c hc => hsz c (List.mem_of_mem_take hc))
      (fun j hj => by
        have hjk : j ≤ k := by
          rw [List.length_take] at hj; omega
        have := htot j (by omega)
        rw [List.take_take, Nat.min_eq_left hjk]
        unfold INT_MAX
        simp only [List.nil_append]
        omega)
    exact ⟨st, hf, hp, hz, c_string_length_le st.prompt 255 hz⟩
  · intro c hc j hj
    have h1 := scan_lf_reads_lt c c.length j hj
    have h2 := hsz c hc
    exact ⟨h1, by omega⟩

theorem C17_prompt_tracker_in_bounds_witness :
    (∀ c ∈ [List.replicate 200 0x61, List.replicate 100 0x62, [0x0A, 0x24]], c.length ≤ 256) ∧
    (∀ k ≤ [List.replicate 200 0x61, List.replicate 100 0x62, [0x0A, 0x24]].length,
      ((afterLastLF ([List.replicate 200 0x61, List.replicate 100 0x62,
        [0x0A, 0x24]].take k).flatten).length : Int) < 2147483648) ∧
    (2 ≤ [List.replicate 200 0x61, List.replicate 100 0x62, [0x0A, 0x24]].length) ∧
    ∃ st, forward_all PromptState.init
        ([List.replicate 200 0x61, List.replicate 100 0x62, [0x0A, 0x24]].take 2) = some st ∧
      st.prompt.length = 256 ∧ st.prompt[255]? = some 0 ∧
      (c_string st.prompt).length ≤ 255 :=
  ⟨by decide, by decide, by decide,
    (C17_prompt_tracker_in_bounds [List.replicate 200 0x61, List.replicate 100 0x62, [0x0A, 0x24]]
      (by decide) (by decide)).1 2 (by decide)⟩

end Conin
